import Mathlib

/-!
Verification of the FIR (First Information Report) extraction pipeline.

Text is modelled as `List Char`.  Python string semantics (whitespace sets,
`str.splitlines` boundaries, `re` pattern matching with backtracking) are
embedded faithfully for the character repertoire the pipeline handles; the
regex character classes `\d` and `\w` are modelled by their ASCII meaning
(the documents in scope are ASCII OCR output).

Embedded sources:
  * `src/fir_extractor/parser.py`     — `clean_text`, `parse_fir_fields`
  * `src/fir_extractor/ocr_engine.py` — `_sort_boxes_top_to_bottom`, `run_ocr_on_images`
  * `src/fir_extractor/main.py`       — `process_pdf`
  * `src/src/extractor.py`, `src/src/fir_fields.py`, `src/src/section_detector.py`
    — module surface of the historical variant
-/

/-! ### Python character classes -/

/-- Python whitespace (the set recognised by `str.strip`, `str.isspace` and
the regex class `\s`): `0x09`–`0x0d`, `0x1c`–`0x1f`, space, next-line,
no-break space, ogham space, `U+2000`–`U+200a`, line/paragraph separator,
narrow no-break space, medium mathematical space, ideographic space. -/
def isPyWs (c : Char) : Bool :=
  (9 ≤ c.toNat && c.toNat ≤ 13) || (28 ≤ c.toNat && c.toNat ≤ 31) ||
  c = ' ' || c.toNat = 0x85 || c.toNat = 0xa0 || c.toNat = 0x1680 ||
  (0x2000 ≤ c.toNat && c.toNat ≤ 0x200a) ||
  c.toNat = 0x2028 || c.toNat = 0x2029 || c.toNat = 0x202f ||
  c.toNat = 0x205f || c.toNat = 0x3000

/-- The line boundaries of Python `str.splitlines`: `\n`, `\r` (with `\r\n`
counted once), `\v`, `\f`, `0x1c`–`0x1e`, next-line, line separator,
paragraph separator. -/
def isLineBreakChar (c : Char) : Bool :=
  c = '\n' || c = '\r' || c.toNat = 0x0b || c.toNat = 0x0c ||
  c.toNat = 0x1c || c.toNat = 0x1d || c.toNat = 0x1e ||
  c.toNat = 0x85 || c.toNat = 0x2028 || c.toNat = 0x2029

/-- Regex `\w` (ASCII scope): letters, digits, underscore. -/
def isWordChar (c : Char) : Bool := c.isAlphanum || c = '_'

/-! ### clean_text (src/fir_extractor/parser.py lines 4-28) -/

/-- After the digits of a `(cid:<digits>)` artifact: consume further digits,
then a closing parenthesis, returning the rest of the text. -/
def cidDigits : List Char → Option (List Char)
  | c :: t => if c.isDigit then cidDigits t else if c = ')' then some t else none
  | [] => none

/-- `cidChk l = some rest` when `l` starts with an artifact matching
`\(cid:\d+\)`; `rest` is the text after the artifact. -/
def cidChk : List Char → Option (List Char)
  | '(' :: 'c' :: 'i' :: 'd' :: ':' :: c :: t => if c.isDigit then cidDigits t else none
  | _ => none

/-- Worker for `cidSub`: while the first argument is positive, that many
characters belong to an artifact already matched and are dropped. -/
def cidSubGo : Nat → List Char → List Char
  | _ + 1, [] => []
  | n + 1, _ :: t => cidSubGo n t
  | 0, [] => []
  | 0, c :: t =>
    match cidChk (c :: t) with
    | some rest => cidSubGo (t.length - rest.length) t
    | none => c :: cidSubGo 0 t

/-- `re.sub(r"\(cid:\d+\)", "", text)` — parser.py line 9: scan left to
right, removing each artifact and continuing after it; on a failed match
the scan advances one character. -/
def cidSub (l : List Char) : List Char := cidSubGo 0 l

/-- `text.replace('\r\n', '\n')` — parser.py line 12 (left-to-right,
non-overlapping). -/
def normRN : List Char → List Char
  | [] => []
  | [c] => [c]
  | c :: d :: t =>
    if c = '\r' ∧ d = '\n' then '\n' :: normRN t else c :: normRN (d :: t)

/-- `text.replace('\r', '\n')` — parser.py line 12. -/
def normR (l : List Char) : List Char := l.map fun c => if c = '\r' then '\n' else c

/-- `re.sub(r"-\n", "", text)` — parser.py line 15: each hyphen-newline
pair is removed, the scan continuing after the removed pair. -/
def dehyph : List Char → List Char
  | [] => []
  | [c] => [c]
  | c :: d :: t =>
    if c = '-' ∧ d = '\n' then dehyph t else c :: dehyph (d :: t)

/-- Length of the maximal leading run of `'\n'` and the remainder. -/
def nlRun : List Char → Nat × List Char
  | [] => (0, [])
  | c :: t => if c = '\n' then ((nlRun t).1 + 1, (nlRun t).2) else (0, c :: t)

theorem nlRun_length (l : List Char) : (nlRun l).2.length + (nlRun l).1 = l.length := by
  induction l with
  | nil => simp [nlRun]
  | cons c t ih =>
    by_cases hc : c = '\n'
    · subst hc
      rw [show nlRun ('\n' :: t) = ((nlRun t).1 + 1, (nlRun t).2) from by simp [nlRun]]
      simp only [List.length_cons]
      omega
    · simp [nlRun, hc]

/-- Worker for `collapseNl`: while the first argument is positive, that many
characters belong to a newline run already rewritten and are dropped. -/
def collapseNlGo : Nat → List Char → List Char
  | _ + 1, [] => []
  | n + 1, _ :: t => collapseNlGo n t
  | 0, [] => []
  | 0, c :: t =>
    if c = '\n' then
      (if (nlRun t).1 + 1 ≥ 3 then ['\n', '\n'] else '\n' :: List.replicate (nlRun t).1 '\n') ++
        collapseNlGo (nlRun t).1 t
    else c :: collapseNlGo 0 t

/-- `re.sub(r"\n{3,}", "\n\n", text)` — parser.py line 18: a maximal run of
three or more newlines (the regex quantifier is greedy, so the leftmost
match covers the whole run) becomes exactly two; shorter runs are kept. -/
def collapseNl (l : List Char) : List Char := collapseNlGo 0 l

/-- Worker for `pySplitlines`: `cur` is the current line, reversed; while
the first argument is positive that many characters belong to a boundary
already handled (the `\n` of a `\r\n`) and are dropped. -/
def pySplitGo : Nat → List Char → List Char → List (List Char)
  | _ + 1, cur, [] => if cur.isEmpty then [] else [cur.reverse]
  | n + 1, cur, _ :: t => pySplitGo n cur t
  | 0, cur, [] => if cur.isEmpty then [] else [cur.reverse]
  | 0, cur, c :: t =>
    if c = '\r' then
      cur.reverse ::
        (match t with
         | '\n' :: _ => pySplitGo 1 [] t
         | _ => pySplitGo 0 [] t)
    else if isLineBreakChar c then cur.reverse :: pySplitGo 0 [] t
    else pySplitGo 0 (c :: cur) t

/-- Python `str.splitlines()` — parser.py line 21: split at every line
boundary (`\r\n` counted once); a trailing boundary adds no empty line and
the empty string has no lines. -/
def pySplitlines (l : List Char) : List (List Char) := pySplitGo 0 [] l

/-- Python `str.strip()`: remove whitespace from both ends. -/
def pyStrip (l : List Char) : List Char :=
  ((l.dropWhile isPyWs).reverse.dropWhile isPyWs).reverse

/-- `while lines and not lines[-1]: lines.pop()` — parser.py lines 25-26. -/
def dropBlankEnd (ls : List (List Char)) : List (List Char) :=
  (ls.reverse.dropWhile List.isEmpty).reverse

/-- `"\n".join(lines)` — parser.py line 28. -/
def joinNl : List (List Char) → List Char
  | [] => []
  | l :: ls => l ++ (if ls.isEmpty then [] else '\n' :: joinNl ls)

/-- `clean_text` — src/fir_extractor/parser.py lines 4-28. -/
def clean_text (text : List Char) : List Char :=
  if text = [] then []
  else
    let t1 := cidSub text
    let t2 := normR (normRN t1)
    let t3 := dehyph t2
    let t4 := collapseNl t3
    let lines := (pySplitlines t4).map pyStrip
    joinNl (dropBlankEnd (lines.dropWhile List.isEmpty))

/-! ### Backtracking regex engine

Python `re` semantics restricted to the constructs appearing in parser.py:
leftmost search position wins, alternatives are tried left to right, the
single-character quantifiers are greedy with backtracking, one capturing
group is recorded.  `$` and `^` are modelled with the MULTILINE rule only,
which is how every anchored pattern of parser.py uses them. -/

structure ReFlags where
  icase : Bool
  dotall : Bool
  multiline : Bool

/-- One item of a character class (or the `.` metacharacter). -/
inductive CC where
  | ch (c : Char)
  | range (lo hi : Char)
  | digit
  | space
  | word
  | dot
deriving DecidableEq

/-- Case folding for IGNORECASE (ASCII scope). -/
def foldCase (c : Char) : Char := c.toLower

def ccMatch (fl : ReFlags) : CC → Char → Bool
  | .ch a, c => if fl.icase then foldCase a = foldCase c else a = c
  | .range lo hi, c =>
      (lo ≤ c && c ≤ hi) ||
      (fl.icase && ((lo ≤ c.toLower && c.toLower ≤ hi) || (lo ≤ c.toUpper && c.toUpper ≤ hi)))
  | .digit, c => c.isDigit
  | .space, c => isPyWs c
  | .word, c => isWordChar c
  | .dot, c => fl.dotall || c ≠ '\n'

def clsMatch (fl : ReFlags) (items : List CC) (c : Char) : Bool :=
  items.any fun i => ccMatch fl i c

/-- The regex abstract syntax needed for parser.py's patterns. -/
inductive RE where
  | eps
  | lit (s : List Char)
  | cls (items : List CC)
  | starC (items : List CC)
  | plusC (items : List CC)
  | repC (lo hi : Nat) (items : List CC)
  | seq (a b : RE)
  | alt (a b : RE)
  | opt (a : RE)
  | group1 (a : RE)
  | bol
  | eol
  | wordB

/-- A position in the subject: `left` is the text before it, reversed. -/
structure Loc where
  left : List Char
  right : List Char

/-- Advance a position by `n` characters. -/
def locAdvance (n : Nat) (loc : Loc) : Loc :=
  ⟨(loc.right.take n).reverse ++ loc.left, loc.right.drop n⟩

/-- Length of the maximal run of characters matching a class. -/
def runLen (fl : ReFlags) (items : List CC) : List Char → Nat
  | [] => 0
  | c :: t => if clsMatch fl items c then runLen fl items t + 1 else 0

/-- A match outcome: the end position and the group-1 capture. -/
def MRes : Type := Loc × Option (List Char)

/-- Greedy quantifier driver: try `f` at `m` repetitions, then `m - 1`, …,
stopping at `lo` (the first success wins, as with Python's backtracking). -/
def tryDown (f : Nat → Option MRes) (lo : Nat) : Nat → Option MRes
  | 0 => if lo = 0 then f 0 else none
  | m + 1 =>
    if m + 1 < lo then none
    else
      match f (m + 1) with
      | some r => some r
      | none => tryDown f lo m

def charEqF (fl : ReFlags) (a c : Char) : Bool :=
  if fl.icase then foldCase a = foldCase c else a = c

/-- Match a literal character sequence. -/
def litMat (fl : ReFlags) : List Char → Loc → Option (List Char) →
    (Loc → Option (List Char) → Option MRes) → Option MRes
  | [], loc, g, k => k loc g
  | a :: s, loc, g, k =>
    match loc.right with
    | [] => none
    | c :: r => if charEqF fl a c then litMat fl s ⟨c :: loc.left, r⟩ g k else none

/-- The continuation-passing matcher.  `g` is the group-1 capture recorded so
far, `k` the continuation for the rest of the pattern. -/
def reMat (fl : ReFlags) : RE → Loc → Option (List Char) →
    (Loc → Option (List Char) → Option MRes) → Option MRes
  | .eps, loc, g, k => k loc g
  | .lit s, loc, g, k => litMat fl s loc g k
  | .cls items, loc, g, k =>
    match loc.right with
    | [] => none
    | c :: r => if clsMatch fl items c then k ⟨c :: loc.left, r⟩ g else none
  | .starC items, loc, g, k =>
    tryDown (fun m => k (locAdvance m loc) g) 0 (runLen fl items loc.right)
  | .plusC items, loc, g, k =>
    let n := runLen fl items loc.right
    if n = 0 then none else tryDown (fun m => k (locAdvance m loc) g) 1 n
  | .repC lo hi items, loc, g, k =>
    let n := min (runLen fl items loc.right) hi
    if n < lo then none else tryDown (fun m => k (locAdvance m loc) g) lo n
  | .seq a b, loc, g, k => reMat fl a loc g fun l g2 => reMat fl b l g2 k
  | .alt a b, loc, g, k =>
    match reMat fl a loc g k with
    | some r => some r
    | none => reMat fl b loc g k
  | .opt a, loc, g, k =>
    match reMat fl a loc g k with
    | some r => some r
    | none => k loc g
  | .group1 a, loc, g, k =>
    reMat fl a loc g fun l _ =>
      k l (some (loc.right.take (loc.right.length - l.right.length)))
  | .bol, loc, g, k =>
    if loc.left.isEmpty || (fl.multiline && loc.left.head? = some '\n') then k loc g else none
  | .eol, loc, g, k =>
    if loc.right.isEmpty || (fl.multiline && loc.right.head? = some '\n') then k loc g else none
  | .wordB, loc, g, k =>
    let wl := match loc.left.head? with | some c => isWordChar c | none => false
    let wr := match loc.right.head? with | some c => isWordChar c | none => false
    if wl != wr then k loc g else none

/-- `re.search`: try each start position left to right; the result is
`(group0, group1)` of the first position where the pattern matches. -/
def reSearchGo (fl : ReFlags) (re : RE) :
    List Char → List Char → Option (List Char × Option (List Char))
  | left, right =>
    match reMat fl re ⟨left, right⟩ none fun l g => some (l, g) with
    | some (endLoc, g) => some (right.take (right.length - endLoc.right.length), g)
    | none =>
      match right with
      | [] => none
      | c :: t => reSearchGo fl re (c :: left) t

def reSearch (fl : ReFlags) (re : RE) (s : List Char) :
    Option (List Char × Option (List Char)) :=
  reSearchGo fl re [] s

/-- `first_search` — parser.py lines 64-69: the first pattern of the list
that matches anywhere wins. -/
def firstSearch (fl : ReFlags) : List RE → List Char →
    Option (List Char × Option (List Char))
  | [], _ => none
  | p :: ps, s =>
    match reSearch fl p s with
    | some r => some r
    | none => firstSearch fl ps s

/-! ### The field patterns of parse_fir_fields (src/fir_extractor/parser.py lines 31-192)

Each definition transcribes one Python pattern string; the original pattern
is quoted in the doc comment.  In quoted patterns the character `∕`
stands for the solidus `U+002F` (written so no quotation contains a Lean
comment delimiter).  Flag sets: `first_search` always passes
IGNORECASE|MULTILINE; the date/time/year/mobile searches pass no flags; the
address/place searches pass IGNORECASE|DOTALL; the remaining direct
searches pass IGNORECASE. -/

def flagsIM : ReFlags := ⟨true, false, true⟩
def flagsNone : ReFlags := ⟨false, false, false⟩
def flagsI : ReFlags := ⟨true, false, false⟩
def flagsID : ReFlags := ⟨true, true, false⟩

/-- Sequence a list of regexes. -/
def reSeq : List RE → RE
  | [] => .eps
  | [r] => r
  | r :: rs => .seq r (reSeq rs)

/-- Alternation of a list of regexes, preferred left to right. -/
def reAlts : List RE → RE
  | [] => .eps
  | [r] => r
  | r :: rs => .alt r (reAlts rs)

def rlit (s : String) : RE := .lit s.toList

def ccAZ : CC := .range 'A' 'Z'
def ccaz : CC := .range 'a' 'z'

/-- Class `[A-Za-z0-9\-∕]`. -/
def clsAlnumDashSlash : List CC := [ccAZ, ccaz, .range '0' '9', .ch '-', .ch '/']

/-- Class `[:\-\s]`. -/
def clsSep : List CC := [.ch ':', .ch '-', .space]

/-- Class `[#:]`. -/
def clsHashColon : List CC := [.ch '#', .ch ':']

def clsSpace : List CC := [.space]

def clsDigit : List CC := [.digit]

/-- Class `[A-Za-z0-9\s\-∕&.,]`. -/
def clsPsChars : List CC :=
  [ccAZ, ccaz, .range '0' '9', .space, .ch '-', .ch '/', .ch '&', .ch '.', .ch ',']

/-- Class `[A-Za-z\s]`. -/
def clsAlphaSpace : List CC := [ccAZ, ccaz, .space]

/-- Class `[A-Za-z0-9,\s/&-]`. -/
def clsActsChars : List CC :=
  [ccAZ, ccaz, .range '0' '9', .ch ',', .space, .ch '/', .ch '&', .ch '-']

/-- Class `[A-Za-z0-9,\s/\-]`. -/
def clsSectionsChars : List CC :=
  [ccAZ, ccaz, .range '0' '9', .ch ',', .space, .ch '/', .ch '-']

/-- Class `[A-Za-z\s.]`. -/
def clsNameChars : List CC := [ccAZ, ccaz, .space, .ch '.']

/-- Class `[∕-]`. -/
def clsDateSep : List CC := [.ch '/', .ch '-']

/-- Class `[:\.]`. -/
def clsTimeSep : List CC := [.ch ':', .ch '.']

def clsDot : List CC := [.dot]

/-- Class `[\-\s]`. -/
def clsMobSep : List CC := [.ch '-', .space]

/-- Pattern `F\s*I\s*R\s*[#:]*\s*No\.?\s*[:\-\s]*([A-Za-z0-9\-∕]+)` (line 73). -/
def pFirNo1 : RE := reSeq [rlit "F", .starC clsSpace, rlit "I", .starC clsSpace, rlit "R",
  .starC clsSpace, .starC clsHashColon, .starC clsSpace, rlit "No", .opt (rlit "."),
  .starC clsSpace, .starC clsSep, .group1 (.plusC clsAlnumDashSlash)]

/-- Pattern `FIR\s*No\.?\s*[:\-\s]*([A-Za-z0-9\-∕]+)` (line 74). -/
def pFirNo2 : RE := reSeq [rlit "FIR", .starC clsSpace, rlit "No", .opt (rlit "."),
  .starC clsSpace, .starC clsSep, .group1 (.plusC clsAlnumDashSlash)]

/-- Pattern `F\.I\.R\.\s*No\.?\s*[:\-\s]*([A-Za-z0-9\-∕]+)` (line 75). -/
def pFirNo3 : RE := reSeq [rlit "F.I.R.", .starC clsSpace, rlit "No", .opt (rlit "."),
  .starC clsSpace, .starC clsSep, .group1 (.plusC clsAlnumDashSlash)]

/-- Pattern `^No\.\s*[:\-\s]*([A-Za-z0-9\-∕]+)` (line 76). -/
def pFirNo4 : RE := reSeq [.bol, rlit "No.", .starC clsSpace, .starC clsSep,
  .group1 (.plusC clsAlnumDashSlash)]

/-- Pattern `(\d{1,2}[∕-]\d{1,2}[∕-]\d{2,4})` (line 82). -/
def pDate : RE := .group1 (reSeq [.repC 1 2 clsDigit, .cls clsDateSep,
  .repC 1 2 clsDigit, .cls clsDateSep, .repC 2 4 clsDigit])

/-- Pattern `(\d{1,2}[:\.]\d{2}(?:\s?(?:AM|PM|am|pm|hrs)?)?)` (line 87). -/
def pTime : RE := .group1 (reSeq [.repC 1 2 clsDigit, .cls clsTimeSep, .repC 2 2 clsDigit,
  .opt (reSeq [.opt (.cls clsSpace),
    .opt (reAlts [rlit "AM", rlit "PM", rlit "am", rlit "pm", rlit "hrs"])])])

/-- Pattern `(?:Police\s*Station|P\.?S\.?|Station)\s*[:\-\s]+([A-Za-z0-9\s\-∕&.,]+)` (line 93). -/
def pPolice1 : RE := reSeq [
  reAlts [reSeq [rlit "Police", .starC clsSpace, rlit "Station"],
          reSeq [rlit "P", .opt (rlit "."), rlit "S", .opt (rlit ".")],
          rlit "Station"],
  .starC clsSpace, .plusC clsSep, .group1 (.plusC clsPsChars)]

/-- Pattern `^Station\s*[:\-\s]+([A-Za-z0-9\s\-∕&.,]+)` (line 94). -/
def pPolice2 : RE := reSeq [.bol, rlit "Station", .starC clsSpace, .plusC clsSep,
  .group1 (.plusC clsPsChars)]

/-- Pattern `District\s*[:\-\s]+([A-Za-z\s]+)` (line 100). -/
def pDistrict : RE := reSeq [rlit "District", .starC clsSpace, .plusC clsSep,
  .group1 (.plusC clsAlphaSpace)]

/-- Pattern `\b(20\d{2}|19\d{2})\b` (line 105). -/
def pYear : RE := reSeq [.wordB,
  .group1 (reAlts [reSeq [rlit "20", .repC 2 2 clsDigit], reSeq [rlit "19", .repC 2 2 clsDigit]]),
  .wordB]

/-- Pattern `G\.?D\.?\s*Entry\s*No\.?\s*[:\-\s]*([A-Za-z0-9\-∕]+)` (line 111). -/
def pGd1 : RE := reSeq [rlit "G", .opt (rlit "."), rlit "D", .opt (rlit "."),
  .starC clsSpace, rlit "Entry", .starC clsSpace, rlit "No", .opt (rlit "."),
  .starC clsSpace, .starC clsSep, .group1 (.plusC clsAlnumDashSlash)]

/-- Pattern `GD\s*No\.?\s*[:\-\s]*([A-Za-z0-9\-∕]+)` (line 112). -/
def pGd2 : RE := reSeq [rlit "GD", .starC clsSpace, rlit "No", .opt (rlit "."),
  .starC clsSpace, .starC clsSep, .group1 (.plusC clsAlnumDashSlash)]

/-- Pattern `(\+?91[\-\s]?\d{10}|\b\d{10}\b)` (line 118). -/
def pMobile : RE := .group1 (reAlts [
  reSeq [.opt (rlit "+"), rlit "91", .opt (.cls clsMobSep), .repC 10 10 clsDigit],
  reSeq [.wordB, .repC 10 10 clsDigit, .wordB]])

/-- Pattern `Acts?\s*[:\-\s]+([A-Za-z0-9,\s/&-]+)` (line 123). -/
def pActs : RE := reSeq [rlit "Act", .opt (rlit "s"), .starC clsSpace, .plusC clsSep,
  .group1 (.plusC clsActsChars)]

/-- Pattern `Sections?\s*[:\-\s]+([A-Za-z0-9,\s/\-]+)` (line 127). -/
def pSections : RE := reSeq [rlit "Section", .opt (rlit "s"), .starC clsSpace, .plusC clsSep,
  .group1 (.plusC clsSectionsChars)]

/-- Pattern `Complainant\s*(?:Name)?\s*[:\-\s]+([A-Za-z\s.]+)` (line 133). -/
def pComplainant1 : RE := reSeq [rlit "Complainant", .starC clsSpace, .opt (rlit "Name"),
  .starC clsSpace, .plusC clsSep, .group1 (.plusC clsNameChars)]

/-- Pattern `Informant\s*(?:Name)?\s*[:\-\s]+([A-Za-z\s.]+)` (line 134). -/
def pComplainant2 : RE := reSeq [rlit "Informant", .starC clsSpace, .opt (rlit "Name"),
  .starC clsSpace, .plusC clsSep, .group1 (.plusC clsNameChars)]

/-- Pattern `Father(?:'s)?\s*Name\s*[:\-\s]+([A-Za-z\s.]+)` (line 139);
the optional group is an apostrophe followed by `s`. -/
def pFather : RE := reSeq [rlit "Father", .opt (.lit ['\'', 's']), .starC clsSpace,
  rlit "Name", .starC clsSpace, .plusC clsSep, .group1 (.plusC clsNameChars)]

/-- Pattern `Present\s+Address\s*[:\-\s]+(.{10,300})` (line 144), DOTALL. -/
def pPresent : RE := reSeq [rlit "Present", .plusC clsSpace, rlit "Address",
  .starC clsSpace, .plusC clsSep, .group1 (.repC 10 300 clsDot)]

/-- Pattern `Permanent\s+Address\s*[:\-\s]+(.{10,300})` (line 148), DOTALL. -/
def pPermanent : RE := reSeq [rlit "Permanent", .plusC clsSpace, rlit "Address",
  .starC clsSpace, .plusC clsSep, .group1 (.repC 10 300 clsDot)]

/-- Pattern `Place\s+of\s+Occurrence\s*[:\-\s]+(.{5,200})` (line 153), DOTALL. -/
def pPlace : RE := reSeq [rlit "Place", .plusC clsSpace, rlit "of", .plusC clsSpace,
  rlit "Occurrence", .starC clsSpace, .plusC clsSep, .group1 (.repC 5 200 clsDot)]

/-- Pattern `Complaint\s*Details\s*[:\-\s]+(.{20,4000})$` (line 159). -/
def pContents1 : RE := reSeq [rlit "Complaint", .starC clsSpace, rlit "Details",
  .starC clsSpace, .plusC clsSep, .group1 (.repC 20 4000 clsDot), .eol]

/-- Pattern `Complaint\s*[:\-\s]+(.{20,4000})$` (line 160). -/
def pContents2 : RE := reSeq [rlit "Complaint", .starC clsSpace, .plusC clsSep,
  .group1 (.repC 20 4000 clsDot), .eol]

/-- Pattern `Details\s*[:\-\s]+(.{20,4000})$` (line 161). -/
def pContents3 : RE := reSeq [rlit "Details", .starC clsSpace, .plusC clsSep,
  .group1 (.repC 20 4000 clsDot), .eol]

/-- Pattern `First\s*Information\s*Report\s*[:\-\s]+(.{20,4000})$` (line 162). -/
def pContents4 : RE := reSeq [rlit "First", .starC clsSpace, rlit "Information",
  .starC clsSpace, rlit "Report", .starC clsSpace, .plusC clsSep,
  .group1 (.repC 20 4000 clsDot), .eol]

/-- Pattern `Investigating\s+Officer\s*[:\-\s]+([A-Za-z\s.]+)` (line 174). -/
def pIO : RE := reSeq [rlit "Investigating", .plusC clsSpace, rlit "Officer",
  .starC clsSpace, .plusC clsSep, .group1 (.plusC clsNameChars)]

/-- Pattern `(SI|ASI|Inspector|Sub\-Inspector|Sub Inspector|Constable)\b` (line 178). -/
def pRank : RE := reSeq [
  .group1 (reAlts [rlit "SI", rlit "ASI", rlit "Inspector", rlit "Sub-Inspector",
    rlit "Sub Inspector", rlit "Constable"]),
  .wordB]

/-- Pattern `(km|m)\s*(?:from|from the)\s*(?:PS|police station)\b(.{0,80})` (line 183);
the second group is not recorded (the code reads only `group(0)`). -/
def pDirDist : RE := reSeq [.group1 (reAlts [rlit "km", rlit "m"]), .starC clsSpace,
  reAlts [rlit "from", rlit "from the"], .starC clsSpace,
  reAlts [rlit "PS", rlit "police station"], .wordB, .repC 0 80 clsDot]

/-- Pattern `(\d+)\s+accused` (line 188). -/
def pAccused : RE := reSeq [.group1 (.plusC clsDigit), .plusC clsSpace, rlit "accused"]

/-! ### parse_fir_fields (src/fir_extractor/parser.py lines 31-192)

Each field's search call and value expression below transcribes the
corresponding `if m: fields[...] = ...` block; the final association list is
the dictionary in its literal key order (Python dicts keep insertion order,
and assigning an existing key keeps its position).  The six fields the
function never assigns stay at the empty string. -/

def firNumberSearch (txt : List Char) := firstSearch flagsIM [pFirNo1, pFirNo2, pFirNo3, pFirNo4] txt
def firDateSearch (txt : List Char) := reSearch flagsNone pDate txt
def firTimeSearch (txt : List Char) := reSearch flagsNone pTime txt
def policeStationSearch (txt : List Char) := firstSearch flagsIM [pPolice1, pPolice2] txt
def districtSearch (txt : List Char) := reSearch flagsI pDistrict txt
def yearSearch (txt : List Char) := reSearch flagsNone pYear txt
def gdSearch (txt : List Char) := firstSearch flagsIM [pGd1, pGd2] txt
def mobileSearch (txt : List Char) := reSearch flagsNone pMobile txt
def actsSearch (txt : List Char) := reSearch flagsI pActs txt
def sectionsSearch (txt : List Char) := reSearch flagsI pSections txt
def complainantSearch (txt : List Char) := firstSearch flagsIM [pComplainant1, pComplainant2] txt
def fatherSearch (txt : List Char) := reSearch flagsI pFather txt
def presentAddrSearch (txt : List Char) := reSearch flagsID pPresent txt
def permanentAddrSearch (txt : List Char) := reSearch flagsID pPermanent txt
def placeSearch (txt : List Char) := reSearch flagsID pPlace txt
def contentsSearch (txt : List Char) := firstSearch flagsIM [pContents1, pContents2, pContents3, pContents4] txt
def ioSearch (txt : List Char) := reSearch flagsI pIO txt
def rankSearch (txt : List Char) := reSearch flagsI pRank txt
def dirDistSearch (txt : List Char) := reSearch flagsI pDirDist txt
def accusedSearch (txt : List Char) := reSearch flagsI pAccused txt

/-- `m.group(1)`: the groups of all patterns above take part in every match,
so the capture is present whenever the search succeeds. -/
def g1 (r : List Char × Option (List Char)) : List Char := r.2.getD []

/-- `m.group(1).strip()`. -/
def g1Strip (r : List Char × Option (List Char)) : List Char := pyStrip (g1 r)

/-- `m.group(1).split('\n')[0].strip()`. -/
def g1FirstLineStrip (r : List Char × Option (List Char)) : List Char :=
  pyStrip ((g1 r).takeWhile fun c => c ≠ '\n')

/-- FIR_Contents (lines 157-171): first matching contents pattern, else the
fallback slice `lines[3:min(30, len(lines))]` when the document has more
than ten lines. -/
def contentsVal (txt : List Char) : List Char :=
  match contentsSearch txt with
  | some r => (pyStrip (g1 r)).take 5000
  | none =>
    let lines := pySplitlines txt
    if lines.length > 10 then (joinNl ((lines.take (min 30 lines.length)).drop 3)).take 5000
    else []

/-- `if m: fields[k] = f(m)` — the field keeps the empty string unless the
search succeeded. -/
def searchVal (r? : Option (List Char × Option (List Char)))
    (f : List Char × Option (List Char) → List Char) : List Char :=
  match r? with
  | some r => f r
  | none => []

/-- `parse_fir_fields` — src/fir_extractor/parser.py lines 31-192. -/
def parse_fir_fields (text : List Char) : List (String × List Char) :=
  let txt := clean_text text
  [("Police_Station", searchVal (policeStationSearch txt) g1Strip),
   ("FIR_Number", searchVal (firNumberSearch txt) g1Strip),
   ("FIR_Date", searchVal (firDateSearch txt) g1),
   ("FIR_Time", searchVal (firTimeSearch txt) g1),
   ("District", searchVal (districtSearch txt) g1Strip),
   ("Year", searchVal (yearSearch txt) g1),
   ("Acts", searchVal (actsSearch txt) g1Strip),
   ("Sections", searchVal (sectionsSearch txt) g1Strip),
   ("Occurrence_Date", []),
   ("Occurrence_Time", []),
   ("GD_Entry_No", searchVal (gdSearch txt) g1Strip),
   ("Info_Type", []),
   ("Place_of_Occurrence", searchVal (placeSearch txt) g1FirstLineStrip),
   ("Direction_Distance_from_PS", searchVal (dirDistSearch txt) Prod.fst),
   ("Address_of_Occurrence", []),
   ("Complainant_Name", searchVal (complainantSearch txt) g1Strip),
   ("Father_Name", searchVal (fatherSearch txt) g1Strip),
   ("DOB", []),
   ("Nationality", []),
   ("Mobile_Number", searchVal (mobileSearch txt) g1),
   ("Present_Address", searchVal (presentAddrSearch txt) g1FirstLineStrip),
   ("Permanent_Address", searchVal (permanentAddrSearch txt) g1FirstLineStrip),
   ("Accused_Count", searchVal (accusedSearch txt) g1),
   ("FIR_Contents", contentsVal txt),
   ("Investigating_Officer", searchVal (ioSearch txt) g1Strip),
   ("Rank", searchVal (rankSearch txt) g1)]

/-! ### run_ocr_on_images (src/fir_extractor/ocr_engine.py lines 117-202)

One OCR item carries an optional bounding polygon and the recognised text.
Coordinates are modelled as integers (the source holds floats; only their
ordering is used).  The OCR engine call itself is external: the embedding
takes the per-page item lists the engine returned. -/

structure OcrItem where
  box : Option (List (Int × Int))
  text : List Char

/-- Lines 174-186: `top` is the least y among the polygon points and `left`
the least x; a missing polygon, or one the comprehension fails on (no
points), leaves both `None`. -/
def itemTopLeft (it : OcrItem) : Option Int × Option Int :=
  match it.box with
  | none => (none, none)
  | some [] => (none, none)
  | some (p :: ps) => (some ((ps.map Prod.snd).foldl min p.2), some ((ps.map Prod.fst).foldl min p.1))

/-- The sort key of `_sort_boxes_top_to_bottom` (lines 117-130): `None`
coordinates sort as zero. -/
def itemKey (it : OcrItem) : Int × Int :=
  ((itemTopLeft it).1.getD 0, (itemTopLeft it).2.getD 0)

/-- Strict lexicographic order on (top, left). -/
def keyLt (a b : Int × Int) : Bool := a.1 < b.1 || (a.1 = b.1 && a.2 < b.2)

/-- Stable insertion: `x` goes before the first element not strictly below
it (Python's `sorted` is stable). -/
def insertLine (x : (Int × Int) × List Char) :
    List ((Int × Int) × List Char) → List ((Int × Int) × List Char)
  | [] => [x]
  | y :: ys => if keyLt y.1 x.1 then y :: insertLine x ys else x :: y :: ys

/-- `sorted(items, key=...)` — stable sort by (top, left). -/
def sortLines : List ((Int × Int) × List Char) → List ((Int × Int) × List Char)
  | [] => []
  | x :: xs => insertLine x (sortLines xs)

/-- One page (lines 158-190): keep items with non-empty text, pair each
with its key, sort, and take the texts in sorted order. -/
def pageLines (page : List OcrItem) : List (List Char) :=
  (sortLines ((page.filter fun it => it.text ≠ []).map fun it => (itemKey it, it.text))).map Prod.snd

/-- `run_ocr_on_images` — src/fir_extractor/ocr_engine.py lines 133-202:
empty input returns the empty text; otherwise each page contributes its
sorted lines plus a form-feed marker line, the lines are joined with
newlines and the result is stripped. -/
def run_ocr_on_images (pages : List (List OcrItem)) : List Char :=
  if pages.isEmpty then []
  else pyStrip (joinNl (pages.foldr (fun page acc => pageLines page ++ ['\x0c'] :: acc) []))

/-- Split at newline separators (the join separator of the reconstructor);
used to state line-count properties of its output. -/
def splitNl : List Char → List (List Char)
  | [] => [[]]
  | c :: t =>
    if c = '\n' then [] :: splitNl t
    else
      match splitNl t with
      | l :: rest => (c :: l) :: rest
      | [] => [[c]]

/-- The number of text lines of a reconstructed document: lines containing
a non-whitespace character (page-break markers are the whitespace-only
lines `"\x0c"`, so they are excluded, as are blank lines). -/
def countTextLines (t : List Char) : Nat :=
  ((splitNl t).filter fun l => l.any fun c => !isPyWs c).length

/-! ### process_pdf (src/fir_extractor/main.py lines 25-71)

The collaborator stages (rasterisation, image preprocessing, OCR) are
parameters; an `Except` value models a stage that raises (`process_pdf`
catches every exception at the document boundary and records `str(e)`).
`convert_pdf_to_images` returns `[]` rather than raising on conversion
failure (ocr_engine.py lines 57-67), which the `Except` model includes as
the `.ok []` case. -/

structure Stages (Img : Type) where
  convert : Except String (List Img)
  preprocessImage : Img → Img
  runOcr : List Img → Except String (List Char)

/-- main.py line 41. -/
def noImagesMsg : String :=
  "No images converted from PDF. Possible corrupt/empty file or Poppler issue."

/-- main.py line 54. -/
def emptyOcrMsg : String := "OCR returned empty text."

/-- Python dict assignment `d[k] = v`: replace in place if the key exists,
else append. -/
def setKV (m : List (String × List Char)) (k : String) (v : List Char) :
    List (String × List Char) :=
  if m.any fun p => p.1 = k then m.map fun p => if p.1 = k then (p.1, v) else p
  else m ++ [(k, v)]

/-- Python `dict.update`: assign each pair of `items` in order. -/
def dictUpdate (m : List (String × List Char)) (items : List (String × List Char)) :
    List (String × List Char) :=
  items.foldl (fun acc p => setKV acc p.1 p.2) m

/-- `process_pdf` — src/fir_extractor/main.py lines 25-71. -/
def process_pdf {Img : Type} (st : Stages Img) (filename : List Char) :
    List (String × List Char) :=
  let result := [("Filename", filename), ("Status", "FAILED".toList), ("Error", [])]
  match st.convert with
  | .error e => setKV result "Error" e.toList
  | .ok images =>
    if images.isEmpty then setKV result "Error" noImagesMsg.toList
    else
      match st.runOcr (images.map st.preprocessImage) with
      | .error e => setKV result "Error" e.toList
      | .ok text =>
        if text = [] ∨ pyStrip text = [] then setKV result "Error" emptyOcrMsg.toList
        else setKV (dictUpdate result (parse_fir_fields text)) "Status" ("SUCCESS".toList)

/-! ### The historical variant (src/src/extractor.py, fir_fields.py, section_detector.py) -/

/-- The names bound at top level by src/src/fir_fields.py: its import of
`detect_section` (line 1), `FIR_FIELDS` (line 4) and `extract_fir_data`
(line 15). -/
def firFieldsModuleNames : List String := ["detect_section", "FIR_FIELDS", "extract_fir_data"]

/-- `FIR_FIELDS` — src/src/fir_fields.py lines 4-13. -/
def FIR_FIELDS : List String :=
  ["District", "Police Station", "FIR No", "Date", "Sections", "Complainant", "Accused"]

/-- The call `detect_section(line)` at src/src/extractor.py line 17:
src/src/section_detector.py line 3 declares `detect_section(text, headings)`
with two required parameters, so a one-argument call raises TypeError. -/
def detectSectionOneArgCall (_line : List Char) : Except String (List (String × List Char)) :=
  .error "TypeError: detect_section() missing 1 required positional argument: headings"

/-- The statement `from src.fir_fields import extract_fir_fields` at
src/src/extractor.py line 4: Python looks the name up among the module's
bindings; `fir_fields.py` does not bind it (it binds `extract_fir_data`),
so the import raises ImportError before `extract_pdf` is defined. -/
def extractPdfImport : Except String Unit :=
  if "extract_fir_fields" ∈ firFieldsModuleNames then .ok ()
  else .error "ImportError: cannot import name extract_fir_fields from src.fir_fields"

/-- `extract_pdf` — src/src/extractor.py lines 5-36, as observable from a
caller: the module import its definition depends on must resolve first; the
body would then call `detect_section(line)` (one argument) for every line of
every page.  Both steps raise, so no record list is ever produced. -/
def extract_pdf (pages : List (List (List Char))) :
    Except String (List (List (String × List Char))) := do
  let _ ← extractPdfImport
  let _ ← pages.mapM fun page => page.mapM fun line => detectSectionOneArgCall line
  pure []

/-! ### Claim statements: shared vocabulary -/

/-- Key lookup in a record (association list), first binding wins. -/
def lookupKV : List (String × List Char) → String → Option (List Char)
  | [], _ => none
  | p :: t, k => if p.1 = k then some p.2 else lookupKV t k

/-- The fixed 26-field schema, in the dictionary-literal order of
parser.py lines 34-61. -/
def firSchemaKeys : List String :=
  ["Police_Station", "FIR_Number", "FIR_Date", "FIR_Time", "District", "Year",
   "Acts", "Sections", "Occurrence_Date", "Occurrence_Time", "GD_Entry_No",
   "Info_Type", "Place_of_Occurrence", "Direction_Distance_from_PS",
   "Address_of_Occurrence", "Complainant_Name", "Father_Name", "DOB",
   "Nationality", "Mobile_Number", "Present_Address", "Permanent_Address",
   "Accused_Count", "FIR_Contents", "Investigating_Officer", "Rank"]

/-- The pattern search parse_fir_fields runs for a field (`none` for the six
fields the function never assigns and for keys outside the schema).
For FIR_Contents this is the section-header search only — the middle-slice
fallback is not a pattern. -/
def fieldSearchOf (f : String) (txt : List Char) :
    Option (List Char × Option (List Char)) :=
  match f with
  | "Police_Station" => policeStationSearch txt
  | "FIR_Number" => firNumberSearch txt
  | "FIR_Date" => firDateSearch txt
  | "FIR_Time" => firTimeSearch txt
  | "District" => districtSearch txt
  | "Year" => yearSearch txt
  | "Acts" => actsSearch txt
  | "Sections" => sectionsSearch txt
  | "GD_Entry_No" => gdSearch txt
  | "Place_of_Occurrence" => placeSearch txt
  | "Direction_Distance_from_PS" => dirDistSearch txt
  | "Complainant_Name" => complainantSearch txt
  | "Father_Name" => fatherSearch txt
  | "Mobile_Number" => mobileSearch txt
  | "Present_Address" => presentAddrSearch txt
  | "Permanent_Address" => permanentAddrSearch txt
  | "Accused_Count" => accusedSearch txt
  | "FIR_Contents" => contentsSearch txt
  | "Investigating_Officer" => ioSearch txt
  | "Rank" => rankSearch txt
  | _ => none

/-- C1 (amended): for every input, parse_fir_fields returns (it is a total
function) a record whose key list is exactly the 26-field schema, and every
schema field other than FIR_Contents whose pattern search found no match is
bound to the empty string — never a sentinel; FIR_Contents may instead
receive the lines-4-to-30 fallback slice when no section header matched. -/
theorem claimC1_schema_and_empty_defaults (text : List Char) :
    (parse_fir_fields text).map Prod.fst = firSchemaKeys ∧
    ∀ f, f ∈ firSchemaKeys →
      ∃ v, lookupKV (parse_fir_fields text) f = some v ∧
        (f ≠ "FIR_Contents" → fieldSearchOf f (clean_text text) = none → v = []) := by
  refine ⟨rfl, ?_⟩
  intro f hf
  simp only [firSchemaKeys, List.mem_cons, List.not_mem_nil, or_false] at hf
  rcases hf with rfl | rfl | rfl | rfl | rfl | rfl | rfl | rfl | rfl | rfl | rfl | rfl | rfl |
    rfl | rfl | rfl | rfl | rfl | rfl | rfl | rfl | rfl | rfl | rfl | rfl | rfl
  · exact ⟨_, rfl, fun _ h => by
      have h2 : policeStationSearch (clean_text text) = none := h
      rw [h2]
      rfl⟩
  · exact ⟨_, rfl, fun _ h => by have h2 : firNumberSearch (clean_text text) = none := h; rw [h2]; rfl⟩
  · exact ⟨_, rfl, fun _ h => by have h2 : firDateSearch (clean_text text) = none := h; rw [h2]; rfl⟩
  · exact ⟨_, rfl, fun _ h => by have h2 : firTimeSearch (clean_text text) = none := h; rw [h2]; rfl⟩
  · exact ⟨_, rfl, fun _ h => by have h2 : districtSearch (clean_text text) = none := h; rw [h2]; rfl⟩
  · exact ⟨_, rfl, fun _ h => by have h2 : yearSearch (clean_text text) = none := h; rw [h2]; rfl⟩
  · exact ⟨_, rfl, fun _ h => by have h2 : actsSearch (clean_text text) = none := h; rw [h2]; rfl⟩
  · exact ⟨_, rfl, fun _ h => by have h2 : sectionsSearch (clean_text text) = none := h; rw [h2]; rfl⟩
  · exact ⟨_, rfl, fun _ _ => rfl⟩
  · exact ⟨_, rfl, fun _ _ => rfl⟩
  · exact ⟨_, rfl, fun _ h => by have h2 : gdSearch (clean_text text) = none := h; rw [h2]; rfl⟩
  · exact ⟨_, rfl, fun _ _ => rfl⟩
  · exact ⟨_, rfl, fun _ h => by have h2 : placeSearch (clean_text text) = none := h; rw [h2]; rfl⟩
  · exact ⟨_, rfl, fun _ h => by have h2 : dirDistSearch (clean_text text) = none := h; rw [h2]; rfl⟩
  · exact ⟨_, rfl, fun _ _ => rfl⟩
  · exact ⟨_, rfl, fun _ h => by have h2 : complainantSearch (clean_text text) = none := h; rw [h2]; rfl⟩
  · exact ⟨_, rfl, fun _ h => by have h2 : fatherSearch (clean_text text) = none := h; rw [h2]; rfl⟩
  · exact ⟨_, rfl, fun _ _ => rfl⟩
  · exact ⟨_, rfl, fun _ _ => rfl⟩
  · exact ⟨_, rfl, fun _ h => by have h2 : mobileSearch (clean_text text) = none := h; rw [h2]; rfl⟩
  · exact ⟨_, rfl, fun _ h => by have h2 : presentAddrSearch (clean_text text) = none := h; rw [h2]; rfl⟩
  · exact ⟨_, rfl, fun _ h => by have h2 : permanentAddrSearch (clean_text text) = none := h; rw [h2]; rfl⟩
  · exact ⟨_, rfl, fun _ h => by have h2 : accusedSearch (clean_text text) = none := h; rw [h2]; rfl⟩
  · exact ⟨_, rfl, fun hne _ => absurd rfl hne⟩
  · exact ⟨_, rfl, fun _ h => by have h2 : ioSearch (clean_text text) = none := h; rw [h2]; rfl⟩
  · exact ⟨_, rfl, fun _ h => by have h2 : rankSearch (clean_text text) = none := h; rw [h2]; rfl⟩

/-- C1 witness: the theorem applied to the empty document and the District
field. -/
theorem claimC1_schema_and_empty_defaults_witness :
    ∃ v, lookupKV (parse_fir_fields []) "District" = some v ∧
      ("District" ≠ "FIR_Contents" → fieldSearchOf "District" (clean_text []) = none → v = []) :=
  (claimC1_schema_and_empty_defaults []).2 "District" (by decide)

/-- A document with twelve short label-free lines: no FIR_Contents pattern
matches, yet the fallback binds FIR_Contents to lines 4-30. -/
def c1CxInput : List Char := "la\nlb\nlc\nld\nle\nlf\nlg\nlh\nli\nlj\nlk\nlm".toList

/-- C1 counterexample: for `c1CxInput` no FIR_Contents pattern matches, but
the field is bound to the non-empty fallback slice, so a field whose
patterns did not match is not bound to the empty string. -/
theorem claimC1_cx :
    contentsSearch (clean_text c1CxInput) = none ∧
    lookupKV (parse_fir_fields c1CxInput) "FIR_Contents" =
      some ("ld\nle\nlf\nlg\nlh\nli\nlj\nlk\nlm".toList) ∧
    ("ld\nle\nlf\nlg\nlh\nli\nlj\nlk\nlm".toList : List Char) ≠ [] := by decide

/-- The input of the C2 scenario. -/
def c2Input : List Char := "FIR No: 145/2023\nDistrict: Central\nDate: 12/04/2023".toList

/-- C2 counterexample: on the scenario input the District pattern's greedy
class `[A-Za-z\s]+` runs across the newline, so District is
`Central\nDate`, not `Central`; and `\b(20\d{2}|19\d{2})\b` matches the
`2023` inside `145/2023`, so Year is not empty. -/
theorem claimC2_cx :
    lookupKV (parse_fir_fields c2Input) "District" = some ("Central\nDate".toList) ∧
    ("Central\nDate".toList : List Char) ≠ "Central".toList ∧
    lookupKV (parse_fir_fields c2Input) "Year" = some ("2023".toList) ∧
    ("2023".toList : List Char) ≠ [] := by decide

/-- C2 (amended): the scenario input yields FIR_Number `145/2023`,
FIR_Date `12/04/2023`, District `Central\nDate` (the capture crosses the
line break), Year `2023` (matched inside `145/2023`), and the empty string
for the other 22 fields. -/
theorem claimC2_amended_record :
    parse_fir_fields c2Input =
    [("Police_Station", []), ("FIR_Number", "145/2023".toList),
     ("FIR_Date", "12/04/2023".toList), ("FIR_Time", []),
     ("District", "Central\nDate".toList), ("Year", "2023".toList),
     ("Acts", []), ("Sections", []), ("Occurrence_Date", []), ("Occurrence_Time", []),
     ("GD_Entry_No", []), ("Info_Type", []), ("Place_of_Occurrence", []),
     ("Direction_Distance_from_PS", []), ("Address_of_Occurrence", []),
     ("Complainant_Name", []), ("Father_Name", []), ("DOB", []), ("Nationality", []),
     ("Mobile_Number", []), ("Present_Address", []), ("Permanent_Address", []),
     ("Accused_Count", []), ("FIR_Contents", []), ("Investigating_Officer", []),
     ("Rank", [])] := by decide

/-- A document whose Complaint Details line is followed by further text. -/
def c5Input : List Char :=
  ("Complaint Details: ".toList) ++ List.replicate 20 'a' ++ ("\nMORE".toList)

/-- C5 counterexample: the capture `(.{20,4000})$` has no DOTALL, so it
stops at the end of the label's line; FIR_Contents omits the following
line `MORE`, under either reading of "everything from the end of the
label to the end of the text". -/
theorem claimC5_cx :
    lookupKV (parse_fir_fields c5Input) "FIR_Contents" = some (List.replicate 20 'a') ∧
    List.replicate 20 'a' ≠ List.replicate 20 'a' ++ ("\nMORE".toList) ∧
    List.replicate 20 'a' ≠ (": ".toList) ++ List.replicate 20 'a' ++ ("\nMORE".toList) := by
  decide

/-- The C3 counterexample input: whitespace-only lines between `a` and `b`. -/
def c3CxInput : List Char := "a\n \n \n \nb".toList

/-- C3 counterexample: the per-line strip (step 5) blanks whitespace-only
lines after the newline-collapse (step 4) has run, so one pass leaves a
four-newline run that a second pass collapses: clean_text is not
idempotent. -/
theorem claimC3_cx :
    clean_text c3CxInput = ("a\n\n\n\nb".toList) ∧
    clean_text (clean_text c3CxInput) = ("a\n\nb".toList) ∧
    clean_text (clean_text c3CxInput) ≠ clean_text c3CxInput := by decide

/-- Does the text contain a `(cid:<digits>)` artifact? -/
def hasCidB : List Char → Bool
  | [] => false
  | c :: t => (cidChk (c :: t)).isSome || hasCidB t

/-- The C4 counterexample input: an artifact nested inside artifact-shaped
text. -/
def c4CxInput : List Char := "(ci(cid:1)d:2)".toList

/-- C4 counterexample: removing the inner artifact of `(ci(cid:1)d:2)`
concatenates the surrounding text into the new artifact `(cid:2)`, which
survives to the output: the output is not artifact-free. -/
theorem claimC4_cx :
    hasCidB c4CxInput = true ∧
    clean_text c4CxInput = ("(cid:2)".toList) ∧
    hasCidB (clean_text c4CxInput) = true := by decide

/-- The C6 counterexample input: two blank lines (three newlines) between
`a` and `b`. -/
def c6CxInput : List Char := "a\n\n\nb".toList

/-- C6 counterexample: the code collapses `\n{3,}`, i.e. already two or
more consecutive blank lines, so an interior run of exactly two blank
lines is not preserved — it becomes one. -/
theorem claimC6_cx :
    clean_text c6CxInput = ("a\n\nb".toList) ∧
    ("a\n\nb".toList : List Char) ≠ c6CxInput := by decide

/-! ### Normalised text: clean_text is the identity on it (claim C3) -/

/-- Boolean prefix test. -/
def isPrefixB : List Char → List Char → Bool
  | [], _ => true
  | _ :: _, [] => false
  | a :: p, c :: t => a = c && isPrefixB p t

/-- Boolean substring (infix) test. -/
def hasSub (pat : List Char) : List Char → Bool
  | [] => pat.isEmpty
  | c :: t => isPrefixB pat (c :: t) || hasSub pat t

theorem hasSub_tail {pat : List Char} {c : Char} {t : List Char}
    (h : hasSub pat (c :: t) = false) : hasSub pat t = false := by
  simp only [hasSub, Bool.or_eq_false_iff] at h
  exact h.2

theorem hasCidB_tail {c : Char} {t : List Char} (h : hasCidB (c :: t) = false) :
    hasCidB t = false := by
  simp only [hasCidB, Bool.or_eq_false_iff] at h
  exact h.2

theorem cidSubGo_zero_id : ∀ s : List Char, hasCidB s = false → cidSubGo 0 s = s := by
  intro s
  induction s with
  | nil => intro _; rfl
  | cons c t ih =>
    intro h
    have h1 : (cidChk (c :: t)).isSome = false := by
      simp only [hasCidB, Bool.or_eq_false_iff] at h
      exact h.1
    have e : cidChk (c :: t) = none := by
      cases he : cidChk (c :: t) with
      | none => rfl
      | some r => rw [he] at h1; simp at h1
    simp only [cidSubGo, e]
    rw [ih (hasCidB_tail h)]

/-- Step 1 is the identity on artifact-free text. -/
theorem cidSub_id {s : List Char} (h : hasCidB s = false) : cidSub s = s :=
  cidSubGo_zero_id s h

/-- Step 2a is the identity on text without carriage returns. -/
theorem normRN_id : ∀ s : List Char, '\r' ∉ s → normRN s = s := by
  intro s
  induction s with
  | nil => intro _; rfl
  | cons c t ih =>
    intro h
    cases t with
    | nil => rfl
    | cons d t2 =>
      have hp : ¬(c = '\r' ∧ d = '\n') := by
        rintro ⟨e, -⟩
        exact h (by simp [e])
      simp only [normRN]
      rw [if_neg hp, ih (fun m => h (List.mem_cons_of_mem c m))]

/-- Step 2b is the identity on text without carriage returns. -/
theorem normR_id : ∀ s : List Char, '\r' ∉ s → normR s = s := by
  intro s
  induction s with
  | nil => intro _; rfl
  | cons c t ih =>
    intro h
    have hc : c ≠ '\r' := fun e => h (by simp [e])
    show (if c = '\r' then '\n' else c) :: normR t = c :: t
    rw [if_neg hc, ih (fun m => h (List.mem_cons_of_mem c m))]

/-- Step 3 is the identity on text without a hyphen-newline pair. -/
theorem dehyph_id : ∀ s : List Char, hasSub ['-', '\n'] s = false → dehyph s = s := by
  intro s
  induction s with
  | nil => intro _; rfl
  | cons c t ih =>
    intro h
    cases t with
    | nil => rfl
    | cons d t2 =>
      have hp : ¬(c = '-' ∧ d = '\n') := by
        rintro ⟨e1, e2⟩
        subst e1; subst e2
        simp [hasSub, isPrefixB] at h
      simp only [dehyph]
      rw [if_neg hp, ih (hasSub_tail h)]

theorem nlRun_succ {t : List Char} {m : Nat} (h : (nlRun t).1 = m + 1) :
    ∃ t2, t = '\n' :: t2 ∧ (nlRun t2).1 = m := by
  cases t with
  | nil => simp [nlRun] at h
  | cons c t2 =>
    by_cases hc : c = '\n'
    · subst hc
      refine ⟨t2, rfl, ?_⟩
      rw [show nlRun ('\n' :: t2) = ((nlRun t2).1 + 1, (nlRun t2).2) from by simp [nlRun]] at h
      omega
    · simp [nlRun, hc] at h

theorem collapseNlGo_zero_id : ∀ (n : Nat) (s : List Char), s.length ≤ n →
    hasSub ['\n', '\n', '\n'] s = false → collapseNlGo 0 s = s := by
  intro n
  induction n with
  | zero =>
    intro s hs _
    have : s = [] := List.eq_nil_of_length_eq_zero (Nat.le_zero.mp hs)
    subst this; rfl
  | succ n ih =>
    intro s hs h
    cases s with
    | nil => rfl
    | cons c t =>
      by_cases hc : c = '\n'
      · subst hc
        rcases e : (nlRun t).1 with - | m
        · have step : collapseNlGo 0 ('\n' :: t) = '\n' :: collapseNlGo 0 t := by
            simp [collapseNlGo, e]
          rw [step, ih t (by simp at hs; omega) (hasSub_tail h)]
        · rcases nlRun_succ e with ⟨t2, rfl, e2⟩
          cases m with
          | zero =>
            have step : collapseNlGo 0 ('\n' :: '\n' :: t2) =
                '\n' :: '\n' :: collapseNlGo 0 t2 := by
              simp [collapseNlGo, e, e2, List.replicate]
            rw [step, ih t2 (by simp at hs; omega) (hasSub_tail (hasSub_tail h))]
          | succ m2 =>
            rcases nlRun_succ e2 with ⟨t3, rfl, -⟩
            simp [hasSub, isPrefixB] at h
      · have step : collapseNlGo 0 (c :: t) = c :: collapseNlGo 0 t := by
          simp [collapseNlGo, hc]
        rw [step, ih t (by simp at hs; omega) (hasSub_tail h)]

/-- Step 4 is the identity on text without a three-newline run. -/
theorem collapseNl_id {s : List Char} (h : hasSub ['\n', '\n', '\n'] s = false) :
    collapseNl s = s :=
  collapseNlGo_zero_id s.length s (Nat.le_refl _) h

/-- Only the newline among the splitlines boundaries occurs in the text. -/
def breaksOnlyNl (s : List Char) : Bool := s.all fun c => !isLineBreakChar c || c = '\n'

theorem pySplitGo_ne_nil : ∀ (t cur : List Char), cur ≠ [] ∨ t ≠ [] →
    pySplitGo 0 cur t ≠ [] := by
  intro t
  induction t with
  | nil =>
    intro cur h
    rcases h with h | h
    · simp [pySplitGo, h]
    · exact absurd rfl h
  | cons c t ih =>
    intro cur _
    simp only [pySplitGo]
    split
    · simp
    · split
      · simp
      · exact ih (c :: cur) (Or.inl (by simp))

theorem getLast?_cons_of_ne_nil {c : Char} {t : List Char} (ht : t ≠ []) :
    (c :: t).getLast? = t.getLast? := by
  cases t with
  | nil => exact absurd rfl ht
  | cons d t2 => simp [List.getLast?]

theorem joinNl_pySplitGo : ∀ (s cur : List Char), breaksOnlyNl s = true →
    s.getLast? ≠ some '\n' → joinNl (pySplitGo 0 cur s) = cur.reverse ++ s := by
  intro s
  induction s with
  | nil =>
    intro cur _ _
    by_cases hc : cur = []
    · simp [pySplitGo, hc, joinNl]
    · simp [pySplitGo, hc, joinNl]
  | cons c t ih =>
    intro cur hb hl
    have hb1 : (!isLineBreakChar c || c = '\n') = true := by
      simp only [breaksOnlyNl, List.all_cons, Bool.and_eq_true] at hb
      exact hb.1
    have hbt : breaksOnlyNl t = true := by
      simp only [breaksOnlyNl, List.all_cons, Bool.and_eq_true] at hb
      exact hb.2
    have hcr : c ≠ '\r' := by
      intro e; subst e
      simp [isLineBreakChar] at hb1
    by_cases hc : c = '\n'
    · subst hc
      have ht : t ≠ [] := by
        intro e; subst e
        simp [List.getLast?] at hl
      have step : pySplitGo 0 cur ('\n' :: t) = cur.reverse :: pySplitGo 0 [] t := by
        simp [pySplitGo, isLineBreakChar]
      rw [step]
      have hne := pySplitGo_ne_nil t [] (Or.inr ht)
      have hj : joinNl (cur.reverse :: pySplitGo 0 [] t) =
          cur.reverse ++ '\n' :: joinNl (pySplitGo 0 [] t) := by
        simp only [joinNl]
        rw [if_neg (by simpa using hne)]
      rw [hj, ih [] hbt (by rwa [getLast?_cons_of_ne_nil ht] at hl)]
      rfl
    · have hlb : isLineBreakChar c = false := by
        rcases Bool.or_eq_true_iff.mp hb1 with h1 | h1
        · simpa using h1
        · exact absurd (by simpa using h1) hc
      have step : pySplitGo 0 cur (c :: t) = pySplitGo 0 (c :: cur) t := by
        simp [pySplitGo, hcr, hlb]
      rw [step]
      have hlt : t.getLast? ≠ some '\n' := by
        cases t with
        | nil => simp
        | cons d t2 => rwa [getLast?_cons_of_ne_nil (by simp)] at hl
      rw [ih (c :: cur) hbt hlt]
      simp

theorem map_pyStrip_id : ∀ ls : List (List Char), (∀ l ∈ ls, pyStrip l = l) →
    ls.map pyStrip = ls := by
  intro ls
  induction ls with
  | nil => intro _; rfl
  | cons l t ih =>
    intro h
    simp only [List.map_cons]
    rw [h l (List.mem_cons_self l t), ih fun x hx => h x (List.mem_cons_of_mem l hx)]

/-- The first line, if any, is non-empty. -/
def headLineNonempty (ls : List (List Char)) : Bool :=
  match ls.head? with
  | none => true
  | some l => !l.isEmpty

/-- The last line, if any, is non-empty. -/
def lastLineNonempty (ls : List (List Char)) : Bool :=
  match ls.getLast? with
  | none => true
  | some l => !l.isEmpty

theorem dropWhile_isEmpty_id {ls : List (List Char)} (h : headLineNonempty ls = true) :
    ls.dropWhile List.isEmpty = ls := by
  cases ls with
  | nil => rfl
  | cons l t =>
    simp only [headLineNonempty, List.head?, Bool.not_eq_true'] at h
    simp [List.dropWhile_cons, h]

theorem dropBlankEnd_id {ls : List (List Char)} (h : lastLineNonempty ls = true) :
    dropBlankEnd ls = ls := by
  unfold dropBlankEnd
  cases hrev : ls.reverse with
  | nil =>
    have : ls = [] := by simpa using congrArg List.reverse hrev
    subst this; rfl
  | cons l t =>
    have hl : ls.getLast? = some l := by
      rw [← List.head?_reverse, hrev]; rfl
    simp only [lastLineNonempty, hl, Bool.not_eq_true'] at h
    rw [show List.dropWhile List.isEmpty (l :: t) = l :: t from by
      simp [List.dropWhile_cons, h]]
    rw [← hrev, List.reverse_reverse]

/-- Text on which clean_text is the identity: no cid artifact, line breaks
are plain newlines only, no hyphen-newline pair, no run of three newlines,
every line already stripped, first and last lines non-empty, and no
trailing newline.  This is the syntactic reading of the normaliser's own
output invariant. -/
def isNormalized (s : List Char) : Bool :=
  !hasCidB s && breaksOnlyNl s && !hasSub ['-', '\n'] s && !hasSub ['\n', '\n', '\n'] s &&
  (pySplitlines s).all (fun l => pyStrip l == l) &&
  headLineNonempty (pySplitlines s) && lastLineNonempty (pySplitlines s) &&
  s.getLast? != some '\n'

theorem breaksOnlyNl_no_cr {s : List Char} (hb : breaksOnlyNl s = true) : '\r' ∉ s := by
  intro m
  have := List.all_eq_true.mp hb _ m
  simp [isLineBreakChar] at this

/-- C3 (amended): clean_text is a no-op — hence idempotent — on
already-normalised text: any text with no cid artifact, only plain
newlines as line breaks, no hyphen-newline pair, no three-newline run,
stripped lines, non-blank edge lines and no trailing newline is returned
unchanged.  (On general input the function is not idempotent.) -/
theorem claimC3_identity_on_normalized (s : List Char) (h : isNormalized s = true) :
    clean_text s = s := by
  by_cases hnil : s = []
  · subst hnil; rfl
  · simp only [isNormalized, Bool.and_eq_true, Bool.not_eq_true'] at h
    obtain ⟨⟨⟨⟨⟨⟨⟨hcid, hbr⟩, hhy⟩, hnnn⟩, hstr⟩, hhead⟩, hlast⟩, hend⟩ := h
    have hcr : '\r' ∉ s := breaksOnlyNl_no_cr hbr
    have hend' : s.getLast? ≠ some '\n' := by simpa using hend
    have e1 : cidSub s = s := cidSub_id hcid
    have e2 : normRN s = s := normRN_id s hcr
    have e3 : normR s = s := normR_id s hcr
    have e4 : dehyph s = s := dehyph_id s hhy
    have e5 : collapseNl s = s := collapseNl_id hnnn
    have e6 : (pySplitlines s).map pyStrip = pySplitlines s :=
      map_pyStrip_id _ fun l hl => by
        have := List.all_eq_true.mp hstr _ hl
        simpa using this
    have e7 : (pySplitlines s).dropWhile List.isEmpty = pySplitlines s :=
      dropWhile_isEmpty_id hhead
    have e8 : dropBlankEnd (pySplitlines s) = pySplitlines s := dropBlankEnd_id hlast
    have e9 : joinNl (pySplitlines s) = s := by
      simpa [pySplitlines] using joinNl_pySplitGo s [] hbr hend'
    unfold clean_text
    rw [if_neg hnil]
    show joinNl (dropBlankEnd
      (((pySplitlines (collapseNl (dehyph (normR (normRN (cidSub s)))))).map
        pyStrip).dropWhile List.isEmpty)) = s
    rw [e1, e2, e3, e4, e5, e6, e7, e8, e9]

/-- C3 witness: a normalised three-line document (with an interior blank
line) is returned unchanged. -/
theorem claimC3_identity_on_normalized_witness :
    isNormalized ("a\n\nb".toList) = true ∧ clean_text ("a\n\nb".toList) = "a\n\nb".toList :=
  ⟨by decide, claimC3_identity_on_normalized _ (by decide)⟩

/-! ### Artifact preservation through the later stages (claim C4) -/

/-- The text of a `(cid:<digits>)` artifact. -/
def cidArt (ds : List Char) : List Char := '(' :: 'c' :: 'i' :: 'd' :: ':' :: (ds ++ [')'])

/-- A valid digit run for an artifact. -/
def dsOk (ds : List Char) : Bool := !ds.isEmpty && ds.all (·.isDigit)

theorem cidDigits_all_digits : ∀ ds b : List Char, (∀ x ∈ ds, x.isDigit = true) →
    cidDigits (ds ++ ')' :: b) = some b := by
  intro ds
  induction ds with
  | nil =>
    intro b _
    simp [cidDigits]
  | cons d ds ih =>
    intro b h
    have hd : d.isDigit = true := h d (List.mem_cons_self d ds)
    simp only [List.cons_append, cidDigits, hd, if_pos]
    exact ih b fun x hx => h x (List.mem_cons_of_mem d hx)

theorem cidChk_art {ds b : List Char} (h : dsOk ds = true) :
    cidChk (cidArt ds ++ b) = some b := by
  rcases ds with - | ⟨d, ds'⟩
  · simp [dsOk] at h
  · simp only [dsOk, Bool.and_eq_true, List.all_eq_true] at h
    have hd : d.isDigit = true := h.2 d (List.mem_cons_self d ds')
    simp only [cidArt, List.cons_append, List.append_assoc, cidChk, hd, if_pos]
    exact cidDigits_all_digits ds' b fun x hx => h.2 x (List.mem_cons_of_mem d hx)

theorem cidDigits_decomp : ∀ l r : List Char, cidDigits l = some r →
    ∃ ds, (∀ x ∈ ds, x.isDigit = true) ∧ l = ds ++ ')' :: r := by
  intro l
  induction l with
  | nil => intro r h; simp [cidDigits] at h
  | cons c t ih =>
    intro r h
    simp only [cidDigits] at h
    by_cases hc : c.isDigit = true
    · rw [if_pos hc] at h
      rcases ih r h with ⟨ds, hds, rfl⟩
      refine ⟨c :: ds, ?_, rfl⟩
      intro x hx
      rcases List.mem_cons.mp hx with rfl | hx
      · exact hc
      · exact hds x hx
    · rw [if_neg hc] at h
      split at h
      · rename_i hp
        cases h
        refine ⟨[], fun x hx => absurd hx (List.not_mem_nil x), ?_⟩
        rw [hp, List.nil_append]
      · cases h

theorem cidChk_decomp {l r : List Char} (h : cidChk l = some r) :
    ∃ ds, dsOk ds = true ∧ l = cidArt ds ++ r := by
  unfold cidChk at h
  split at h
  · rename_i c t
    by_cases hc : c.isDigit = true
    · rw [if_pos hc] at h
      rcases cidDigits_decomp t r h with ⟨ds, hds, rfl⟩
      refine ⟨c :: ds, ?_, ?_⟩
      · simp only [dsOk, Bool.and_eq_true, List.all_eq_true]
        refine ⟨by simp, fun x hx => ?_⟩
        rcases List.mem_cons.mp hx with rfl | hx
        · exact hc
        · exact hds x hx
      · simp [cidArt]
    · rw [if_neg hc] at h
      cases h
  · cases h

theorem hasCidB_of_decomp : ∀ (a : List Char) {ds b s : List Char}, dsOk ds = true →
    s = a ++ cidArt ds ++ b → hasCidB s = true := by
  intro a
  induction a with
  | nil =>
    intro ds b s hds hs
    subst hs
    have hchk : (cidChk ('(' :: 'c' :: 'i' :: 'd' :: ':' :: (ds ++ ')' :: b))).isSome = true := by
      have h0 := cidChk_art (b := b) hds
      rw [show cidArt ds ++ b = '(' :: 'c' :: 'i' :: 'd' :: ':' :: (ds ++ ')' :: b) from by
        simp [cidArt]] at h0
      rw [h0]
      rfl
    rw [List.nil_append, show cidArt ds ++ b = '(' :: 'c' :: 'i' :: 'd' :: ':' :: (ds ++ ')' :: b)
      from by simp [cidArt]]
    simp only [hasCidB, Bool.or_eq_true]
    exact Or.inl hchk
  | cons c a ih =>
    intro ds b s hds hs
    subst hs
    rw [show (c :: a) ++ cidArt ds ++ b = c :: (a ++ cidArt ds ++ b) from by simp]
    show ((cidChk (c :: (a ++ cidArt ds ++ b))).isSome || hasCidB (a ++ cidArt ds ++ b)) = true
    rw [ih hds rfl]
    simp

theorem hasCidB_decomp : ∀ s : List Char, hasCidB s = true →
    ∃ ds a b, dsOk ds = true ∧ s = a ++ cidArt ds ++ b := by
  intro s
  induction s with
  | nil => intro h; simp [hasCidB] at h
  | cons c t ih =>
    intro h
    simp only [hasCidB, Bool.or_eq_true] at h
    rcases h with h | h
    · rcases Option.isSome_iff_exists.mp h with ⟨r, hr⟩
      rcases cidChk_decomp hr with ⟨ds, hds, he⟩
      exact ⟨ds, [], r, hds, by rw [List.nil_append]; exact he⟩
    · rcases ih h with ⟨ds, a, b, hds, he⟩
      exact ⟨ds, c :: a, b, hds, by rw [he]; rfl⟩

theorem cidArt_chars {ds : List Char} (h : dsOk ds = true) :
    ∀ x ∈ cidArt ds, x ≠ '\r' ∧ x ≠ '\n' := by
  intro x hx
  simp only [cidArt, List.mem_cons, List.mem_append, List.mem_singleton] at hx
  have hdig : ∀ y ∈ ds, y.isDigit = true := by
    simp only [dsOk, Bool.and_eq_true, List.all_eq_true] at h
    intro y hy
    exact h.2 y hy
  rcases hx with rfl | rfl | rfl | rfl | rfl | hx | rfl | h0
  · exact ⟨by decide, by decide⟩
  · exact ⟨by decide, by decide⟩
  · exact ⟨by decide, by decide⟩
  · exact ⟨by decide, by decide⟩
  · exact ⟨by decide, by decide⟩
  · constructor
    · rintro rfl; exact absurd (hdig _ hx) (by decide)
    · rintro rfl; exact absurd (hdig _ hx) (by decide)
  · exact ⟨by decide, by decide⟩
  · cases h0

theorem cidArt_ne_nil (ds : List Char) : cidArt ds ≠ [] := by simp [cidArt]

/-- Transitivity of the explicit infix decomposition. -/
theorem infix_trans_expl {u x z : List Char} (h1 : ∃ a b, x = a ++ u ++ b)
    (h2 : ∃ a b, z = a ++ x ++ b) : ∃ a b, z = a ++ u ++ b := by
  rcases h1 with ⟨a1, b1, rfl⟩
  rcases h2 with ⟨a2, b2, rfl⟩
  exact ⟨a2 ++ a1, b1 ++ b2, by simp [List.append_assoc]⟩

theorem prefix_normRN : ∀ (s u b : List Char), (∀ x ∈ u, x ≠ '\r' ∧ x ≠ '\n') →
    normRN s = u ++ b → ∃ b', s = u ++ b' := by
  intro s
  induction s with
  | nil =>
    intro u b _ h
    have hu : u = [] := by
      have : ([] : List Char) = u ++ b := h
      exact (List.append_eq_nil.mp this.symm).1
    subst hu
    exact ⟨[], rfl⟩
  | cons c t ih =>
    intro u b hu h
    cases u with
    | nil => exact ⟨c :: t, rfl⟩
    | cons a u' =>
      cases t with
      | nil =>
        have h2 : ([c] : List Char) = a :: (u' ++ b) := h
        have hca : c = a := (List.cons.injEq _ _ _ _ ▸ h2).1
        have hrest : ([] : List Char) = u' ++ b := (List.cons.injEq _ _ _ _ ▸ h2).2
        have hu' : u' = [] := (List.append_eq_nil.mp hrest.symm).1
        subst hu'; subst hca
        exact ⟨[], rfl⟩
      | cons d t2 =>
        by_cases hp : c = '\r' ∧ d = '\n'
        · obtain ⟨rfl, rfl⟩ := hp
          rw [show normRN ('\r' :: '\n' :: t2) = '\n' :: normRN t2 from by simp [normRN]] at h
          have : '\n' = a := (List.cons.injEq _ _ _ _ ▸ h).1
          exact absurd this.symm (hu a (List.mem_cons_self a u')).2
        · rw [show normRN (c :: d :: t2) = c :: normRN (d :: t2) from by
            simp [normRN, hp]] at h
          have hca : c = a := (List.cons.injEq _ _ _ _ ▸ h).1
          have h2 : normRN (d :: t2) = u' ++ b := (List.cons.injEq _ _ _ _ ▸ h).2
          rcases ih u' b (fun x hx => hu x (List.mem_cons_of_mem a hx)) h2 with ⟨b', hb⟩
          subst hca
          exact ⟨b', by rw [List.cons_append, ← hb]⟩

theorem infix_normRN : ∀ (n : Nat) (s a u b : List Char), s.length ≤ n →
    (∀ x ∈ u, x ≠ '\r' ∧ x ≠ '\n') → u ≠ [] →
    normRN s = a ++ u ++ b → ∃ a' b', s = a' ++ u ++ b' := by
  intro n
  induction n with
  | zero =>
    intro s a u b hs hu hne h
    have : s = [] := List.eq_nil_of_length_eq_zero (Nat.le_zero.mp hs)
    subst this
    have : ([] : List Char) = a ++ u ++ b := h
    rcases List.append_eq_nil.mp this.symm with ⟨h1, -⟩
    exact absurd (List.append_eq_nil.mp h1).2 hne
  | succ n ih =>
    intro s a u b hs hu hne h
    cases s with
    | nil =>
      have : ([] : List Char) = a ++ u ++ b := h
      rcases List.append_eq_nil.mp this.symm with ⟨h1, -⟩
      exact absurd (List.append_eq_nil.mp h1).2 hne
    | cons c t =>
      cases t with
      | nil => exact ⟨a, b, h⟩
      | cons d t2 =>
        by_cases hp : c = '\r' ∧ d = '\n'
        · obtain ⟨rfl, rfl⟩ := hp
          rw [show normRN ('\r' :: '\n' :: t2) = '\n' :: normRN t2 from by simp [normRN]] at h
          cases a with
          | nil =>
            cases u with
            | nil => exact absurd rfl hne
            | cons x u' =>
              have : '\n' = x := (List.cons.injEq _ _ _ _ ▸ h).1
              exact absurd this.symm (hu x (List.mem_cons_self x u')).2
          | cons x a' =>
            have h2 : normRN t2 = a' ++ u ++ b := (List.cons.injEq _ _ _ _ ▸ h).2
            rcases ih t2 a' u b (by simp at hs ⊢; omega) hu hne h2 with ⟨a'', b'', he⟩
            exact ⟨'\r' :: '\n' :: a'', b'', by rw [he]; rfl⟩
        · rw [show normRN (c :: d :: t2) = c :: normRN (d :: t2) from by
            simp [normRN, hp]] at h
          cases a with
          | nil =>
            cases u with
            | nil => exact absurd rfl hne
            | cons x u' =>
              have hcx : c = x := (List.cons.injEq _ _ _ _ ▸ h).1
              have h2 : normRN (d :: t2) = u' ++ b := (List.cons.injEq _ _ _ _ ▸ h).2
              rcases prefix_normRN (d :: t2) u' b
                (fun y hy => hu y (List.mem_cons_of_mem x hy)) h2 with ⟨b', hb⟩
              subst hcx
              exact ⟨[], b', by rw [List.nil_append, List.cons_append, ← hb]⟩
          | cons x a' =>
            have hcx : c = x := (List.cons.injEq _ _ _ _ ▸ h).1
            have h2 : normRN (d :: t2) = a' ++ u ++ b := (List.cons.injEq _ _ _ _ ▸ h).2
            rcases ih (d :: t2) a' u b (by simp at hs ⊢; omega) hu hne h2 with ⟨a'', b'', he⟩
            subst hcx
            exact ⟨c :: a'', b'', by rw [he]; rfl⟩

theorem prefix_normR : ∀ (s u b : List Char), (∀ x ∈ u, x ≠ '\n') →
    normR s = u ++ b → ∃ b', s = u ++ b' := by
  intro s
  induction s with
  | nil =>
    intro u b _ h
    have hu : u = [] := (List.append_eq_nil.mp (show u ++ b = [] from h.symm)).1
    subst hu
    exact ⟨[], rfl⟩
  | cons c t ih =>
    intro u b hu h
    cases u with
    | nil => exact ⟨c :: t, rfl⟩
    | cons a u' =>
      have h' : (if c = '\r' then '\n' else c) :: normR t = a :: (u' ++ b) := h
      have h1 : (if c = '\r' then '\n' else c) = a := (List.cons.injEq _ _ _ _ ▸ h').1
      have h2 : normR t = u' ++ b := (List.cons.injEq _ _ _ _ ▸ h').2
      have hca : c = a := by
        by_cases hcr : c = '\r'
        · rw [if_pos hcr] at h1
          exact absurd h1.symm (hu a (List.mem_cons_self a u'))
        · rwa [if_neg hcr] at h1
      rcases ih u' b (fun x hx => hu x (List.mem_cons_of_mem a hx)) h2 with ⟨b', hb⟩
      subst hca
      exact ⟨b', by rw [List.cons_append, ← hb]⟩

theorem infix_normR : ∀ (s a u b : List Char), (∀ x ∈ u, x ≠ '\n') → u ≠ [] →
    normR s = a ++ u ++ b → ∃ a' b', s = a' ++ u ++ b' := by
  intro s
  induction s with
  | nil =>
    intro a u b _ hne h
    have : a ++ u ++ b = [] := h.symm
    rcases List.append_eq_nil.mp this with ⟨h1, -⟩
    exact absurd (List.append_eq_nil.mp h1).2 hne
  | cons c t ih =>
    intro a u b hu hne h
    cases a with
    | nil =>
      rcases prefix_normR (c :: t) u b hu (by rw [List.nil_append] at h; exact h) with ⟨b', hb⟩
      exact ⟨[], b', by rw [List.nil_append]; exact hb⟩
    | cons x a' =>
      have h' : (if c = '\r' then '\n' else c) :: normR t = x :: (a' ++ u ++ b) := h
      have h2 : normR t = a' ++ u ++ b := (List.cons.injEq _ _ _ _ ▸ h').2
      rcases ih a' u b hu hne h2 with ⟨a'', b'', he⟩
      exact ⟨c :: a'', b'', by rw [he]; rfl⟩

theorem collapseNlGo_skip : ∀ (m : Nat) (t : List Char),
    collapseNlGo m t = collapseNlGo 0 (t.drop m) := by
  intro m
  induction m with
  | zero => intro t; rfl
  | succ m ih =>
    intro t
    cases t with
    | nil => rfl
    | cons c t' =>
      rw [show collapseNlGo (m + 1) (c :: t') = collapseNlGo m t' from by simp [collapseNlGo]]
      rw [ih t']
      rfl

theorem nlRun_decomp : ∀ t : List Char, t = List.replicate (nlRun t).1 '\n' ++ (nlRun t).2 := by
  intro t
  induction t with
  | nil => simp [nlRun]
  | cons c t ih =>
    by_cases hc : c = '\n'
    · subst hc
      rw [show nlRun ('\n' :: t) = ((nlRun t).1 + 1, (nlRun t).2) from by simp [nlRun]]
      rw [List.replicate_succ, List.cons_append]
      exact congrArg ('\n' :: ·) ih
    · simp [nlRun, hc]

theorem drop_replicate_append : ∀ (n : Nat) (c : Char) (r : List Char),
    (List.replicate n c ++ r).drop n = r := by
  intro n c
  induction n with
  | zero => intro r; rfl
  | succ n ih => intro r; simp [List.replicate_succ, ih]

theorem nlRun_drop (t : List Char) : t.drop (nlRun t).1 = (nlRun t).2 := by
  set p := nlRun t with hp
  rw [show t = List.replicate p.1 '\n' ++ p.2 from by rw [hp]; exact nlRun_decomp t]
  exact drop_replicate_append _ _ _

theorem infix_after_nl_block : ∀ (blk rest a u b : List Char), (∀ x ∈ blk, x = '\n') →
    (∀ x ∈ u, x ≠ '\n') → u ≠ [] → blk ++ rest = a ++ u ++ b →
    ∃ a', rest = a' ++ u ++ b := by
  intro blk
  induction blk with
  | nil =>
    intro rest a u b _ _ _ h
    exact ⟨a, by rw [List.nil_append] at h; exact h⟩
  | cons c blk' ih =>
    intro rest a u b hblk hu hne h
    have hc : c = '\n' := hblk c (List.mem_cons_self c blk')
    cases a with
    | nil =>
      cases u with
      | nil => exact absurd rfl hne
      | cons x u' =>
        have h' : c :: (blk' ++ rest) = x :: (u' ++ b) := h
        have : c = x := (List.cons.injEq _ _ _ _ ▸ h').1
        exact absurd (hc ▸ this.symm) (hu x (List.mem_cons_self x u'))
    | cons x a' =>
      have h' : c :: (blk' ++ rest) = x :: (a' ++ u ++ b) := h
      have h2 : blk' ++ rest = a' ++ u ++ b := (List.cons.injEq _ _ _ _ ▸ h').2
      exact ih rest a' u b (fun y hy => hblk y (List.mem_cons_of_mem c hy)) hu hne h2

/-- The newline block emitted for a run headed by `'\n'`. -/
def nlBlock (t : List Char) : List Char :=
  if (nlRun t).1 + 1 ≥ 3 then ['\n', '\n'] else '\n' :: List.replicate (nlRun t).1 '\n'

theorem collapseNlGo_cons_nl (t : List Char) :
    collapseNlGo 0 ('\n' :: t) = nlBlock t ++ collapseNlGo (nlRun t).1 t := by
  simp [collapseNlGo, nlBlock]

theorem nlBlock_all_nl (t : List Char) : ∀ x ∈ nlBlock t, x = '\n' := by
  intro x hx
  unfold nlBlock at hx
  split at hx
  · simp at hx
    exact hx
  · rcases List.mem_cons.mp hx with h | h
    · exact h
    · exact List.eq_of_mem_replicate h

theorem nlBlock_head (t : List Char) : ∃ r, nlBlock t = '\n' :: r := by
  unfold nlBlock
  split
  · exact ⟨['\n'], rfl⟩
  · exact ⟨List.replicate (nlRun t).1 '\n', rfl⟩

theorem prefix_collapse : ∀ (n : Nat) (s u b : List Char), s.length ≤ n →
    (∀ x ∈ u, x ≠ '\n') → collapseNlGo 0 s = u ++ b → ∃ b', s = u ++ b' := by
  intro n
  induction n with
  | zero =>
    intro s u b hs _ h
    have : s = [] := List.eq_nil_of_length_eq_zero (Nat.le_zero.mp hs)
    subst this
    have hu : u = [] := (List.append_eq_nil.mp (show u ++ b = [] from h.symm)).1
    subst hu
    exact ⟨[], rfl⟩
  | succ n ih =>
    intro s u b hs hu h
    cases s with
    | nil =>
      have hu2 : u = [] := (List.append_eq_nil.mp (show u ++ b = [] from h.symm)).1
      subst hu2
      exact ⟨[], rfl⟩
    | cons c t =>
      cases u with
      | nil => exact ⟨c :: t, rfl⟩
      | cons x u' =>
        by_cases hc : c = '\n'
        · subst hc
          rw [collapseNlGo_cons_nl] at h
          rcases nlBlock_head t with ⟨r, hr⟩
          rw [hr] at h
          have h' : '\n' :: (r ++ collapseNlGo (nlRun t).1 t) = x :: (u' ++ b) := h
          have : '\n' = x := (List.cons.injEq _ _ _ _ ▸ h').1
          exact absurd this.symm (hu x (List.mem_cons_self x u'))
        · rw [show collapseNlGo 0 (c :: t) = c :: collapseNlGo 0 t from by
            simp [collapseNlGo, hc]] at h
          have h1 : c = x := (List.cons.injEq _ _ _ _ ▸ h).1
          have h2 : collapseNlGo 0 t = u' ++ b := (List.cons.injEq _ _ _ _ ▸ h).2
          rcases ih t u' b (by simp at hs ⊢; omega)
            (fun y hy => hu y (List.mem_cons_of_mem x hy)) h2 with ⟨b', hb⟩
          subst h1
          exact ⟨b', by rw [List.cons_append, ← hb]⟩

theorem infix_collapse : ∀ (n : Nat) (s a u b : List Char), s.length ≤ n →
    (∀ x ∈ u, x ≠ '\n') → u ≠ [] →
    collapseNlGo 0 s = a ++ u ++ b → ∃ a' b', s = a' ++ u ++ b' := by
  intro n
  induction n with
  | zero =>
    intro s a u b hs _ hne h
    have : s = [] := List.eq_nil_of_length_eq_zero (Nat.le_zero.mp hs)
    subst this
    rcases List.append_eq_nil.mp (show a ++ u ++ b = [] from h.symm) with ⟨h1, -⟩
    exact absurd (List.append_eq_nil.mp h1).2 hne
  | succ n ih =>
    intro s a u b hs hu hne h
    cases s with
    | nil =>
      rcases List.append_eq_nil.mp (show a ++ u ++ b = [] from h.symm) with ⟨h1, -⟩
      exact absurd (List.append_eq_nil.mp h1).2 hne
    | cons c t =>
      by_cases hc : c = '\n'
      · subst hc
        rw [collapseNlGo_cons_nl] at h
        rcases infix_after_nl_block (nlBlock t) _ a u b (nlBlock_all_nl t) hu hne h with ⟨a0, h0⟩
        rw [collapseNlGo_skip, nlRun_drop] at h0
        have hlen : (nlRun t).2.length ≤ n := by
          have := nlRun_length t
          simp at hs
          omega
        rcases ih (nlRun t).2 a0 u b hlen hu hne h0 with ⟨a'', b'', he⟩
        refine ⟨'\n' :: List.replicate (nlRun t).1 '\n' ++ a'', b'', ?_⟩
        have ht := nlRun_decomp t
        calc '\n' :: t = '\n' :: (List.replicate (nlRun t).1 '\n' ++ (nlRun t).2) := by rw [← ht]
          _ = '\n' :: (List.replicate (nlRun t).1 '\n' ++ (a'' ++ u ++ b'')) := by rw [he]
          _ = ('\n' :: List.replicate (nlRun t).1 '\n' ++ a'') ++ u ++ b'' := by
              simp [List.append_assoc]
      · cases a with
        | nil =>
          rcases prefix_collapse (n + 1) (c :: t) u b (by simpa using hs) hu
            (by rw [List.nil_append] at h; exact h) with ⟨b', hb⟩
          exact ⟨[], b', by rw [List.nil_append]; exact hb⟩
        | cons x a' =>
          rw [show collapseNlGo 0 (c :: t) = c :: collapseNlGo 0 t from by
            simp [collapseNlGo, hc]] at h
          have h2 : collapseNlGo 0 t = a' ++ u ++ b := (List.cons.injEq _ _ _ _ ▸ h).2
          rcases ih t a' u b (by simp at hs ⊢; omega) hu hne h2 with ⟨a'', b'', he⟩
          exact ⟨c :: a'', b'', by rw [he]; rfl⟩

theorem mem_pySplitGo_within : ∀ (n : Nat) (t cur l : List Char), t.length ≤ n →
    l ∈ pySplitGo 0 cur t → ∃ a b, cur.reverse ++ t = a ++ l ++ b := by
  intro n
  induction n with
  | zero =>
    intro t cur l hs hm
    have : t = [] := List.eq_nil_of_length_eq_zero (Nat.le_zero.mp hs)
    subst this
    simp only [pySplitGo] at hm
    split at hm
    · cases hm
    · rcases List.mem_singleton.mp hm with rfl
      exact ⟨[], [], by simp⟩
  | succ n ih =>
    intro t cur l hs hm
    cases t with
    | nil =>
      simp only [pySplitGo] at hm
      split at hm
      · cases hm
      · rcases List.mem_singleton.mp hm with rfl
        exact ⟨[], [], by simp⟩
    | cons c t' =>
      simp only [pySplitGo] at hm
      by_cases hcr : c = '\r'
      · rw [if_pos hcr] at hm
        subst hcr
        rcases List.mem_cons.mp hm with rfl | hm2
        · exact ⟨[], '\r' :: t', by simp⟩
        · split at hm2
          · rename_i t2
            rw [show pySplitGo 1 [] ('\n' :: t2) = pySplitGo 0 [] t2 from by
              simp [pySplitGo]] at hm2
            rcases ih t2 [] l (by simp at hs ⊢; omega) hm2 with ⟨a, b, e⟩
            refine ⟨cur.reverse ++ ['\r', '\n'] ++ a, b, ?_⟩
            rw [show ([] : List Char).reverse ++ t2 = t2 from by simp] at e
            rw [show ('\r' :: '\n' :: t2 : List Char) = ['\r', '\n'] ++ t2 from rfl, e]
            simp [List.append_assoc]
          · rcases ih t' [] l (by simp at hs ⊢; omega) hm2 with ⟨a, b, e⟩
            refine ⟨cur.reverse ++ ['\r'] ++ a, b, ?_⟩
            rw [show ([] : List Char).reverse ++ t' = t' from by simp] at e
            rw [show ('\r' :: t' : List Char) = ['\r'] ++ t' from rfl, e]
            simp [List.append_assoc]
      · rw [if_neg hcr] at hm
        by_cases hlb : isLineBreakChar c = true
        · rw [if_pos hlb] at hm
          rcases List.mem_cons.mp hm with rfl | hm2
          · exact ⟨[], c :: t', by simp⟩
          · rcases ih t' [] l (by simp at hs ⊢; omega) hm2 with ⟨a, b, e⟩
            refine ⟨cur.reverse ++ [c] ++ a, b, ?_⟩
            rw [show ([] : List Char).reverse ++ t' = t' from by simp] at e
            rw [show (c :: t' : List Char) = [c] ++ t' from rfl, e]
            simp [List.append_assoc]
        · rw [if_neg hlb] at hm
          rcases ih t' (c :: cur) l (by simp at hs ⊢; omega) hm with ⟨a, b, e⟩
          refine ⟨a, b, ?_⟩
          rw [show cur.reverse ++ c :: t' = (c :: cur).reverse ++ t' from by simp, e]

theorem pyStrip_decomp3 (l : List Char) : ∃ a b, l = a ++ pyStrip l ++ b := by
  have h1 : l = l.takeWhile isPyWs ++ l.dropWhile isPyWs :=
    (List.takeWhile_append_dropWhile isPyWs l).symm
  have h2 : l.dropWhile isPyWs =
      pyStrip l ++ ((l.dropWhile isPyWs).reverse.takeWhile isPyWs).reverse := by
    conv_lhs => rw [← List.reverse_reverse (l.dropWhile isPyWs)]
    conv_lhs =>
      rw [← List.takeWhile_append_dropWhile isPyWs (l.dropWhile isPyWs).reverse]
    rw [List.reverse_append]
    rfl
  refine ⟨l.takeWhile isPyWs, ((l.dropWhile isPyWs).reverse.takeWhile isPyWs).reverse, ?_⟩
  rw [List.append_assoc, ← h2, ← h1]

theorem mem_of_dropWhile {α : Type} {p : α → Bool} :
    ∀ {ls : List α} {x : α}, x ∈ ls.dropWhile p → x ∈ ls := by
  intro ls
  induction ls with
  | nil => intro x h; exact h
  | cons a t ih =>
    intro x h
    rw [List.dropWhile_cons] at h
    split at h
    · exact List.mem_cons_of_mem a (ih h)
    · exact h

theorem mem_of_dropBlankEnd {ls : List (List Char)} {l : List Char}
    (h : l ∈ dropBlankEnd ls) : l ∈ ls := by
  unfold dropBlankEnd at h
  rw [List.mem_reverse] at h
  exact List.mem_reverse.mp (mem_of_dropWhile h)

theorem prefix_before_nl : ∀ (u b x y : List Char), (∀ c ∈ u, c ≠ '\n') →
    u ++ b = x ++ '\n' :: y → ∃ b', x = u ++ b' := by
  intro u
  induction u with
  | nil => intro b x y _ _; exact ⟨x, rfl⟩
  | cons d u' ih =>
    intro b x y hu h
    cases x with
    | nil =>
      have : d = '\n' := (List.cons.injEq _ _ _ _ ▸ h).1
      exact absurd this (hu d (List.mem_cons_self d u'))
    | cons e x' =>
      have h1 : d = e := (List.cons.injEq _ _ _ _ ▸ h).1
      have h2 : u' ++ b = x' ++ '\n' :: y := (List.cons.injEq _ _ _ _ ▸ h).2
      rcases ih b x' y (fun c hc => hu c (List.mem_cons_of_mem d hc)) h2 with ⟨b', hb⟩
      subst h1
      exact ⟨b', by rw [hb]; rfl⟩

theorem infix_split_nl : ∀ (x y a u b : List Char), (∀ c ∈ u, c ≠ '\n') → u ≠ [] →
    x ++ '\n' :: y = a ++ u ++ b →
    (∃ a' b', x = a' ++ u ++ b') ∨ (∃ a' b', y = a' ++ u ++ b') := by
  intro x
  induction x with
  | nil =>
    intro y a u b hu hne h
    cases a with
    | nil =>
      cases u with
      | nil => exact absurd rfl hne
      | cons d u' =>
        have : '\n' = d := (List.cons.injEq _ _ _ _ ▸ h).1
        exact absurd this.symm (hu d (List.mem_cons_self d u'))
    | cons e a' =>
      have h2 : y = a' ++ u ++ b := (List.cons.injEq _ _ _ _ ▸ h).2
      exact Or.inr ⟨a', b, h2⟩
  | cons c x' ih =>
    intro y a u b hu hne h
    cases a with
    | nil =>
      cases u with
      | nil => exact absurd rfl hne
      | cons d u' =>
        have h1 : c = d := (List.cons.injEq _ _ _ _ ▸ h).1
        have h2 : x' ++ '\n' :: y = u' ++ b := (List.cons.injEq _ _ _ _ ▸ h).2
        rcases prefix_before_nl u' b x' y (fun e he => hu e (List.mem_cons_of_mem d he))
          h2.symm with ⟨b', hb⟩
        subst h1
        exact Or.inl ⟨[], b', by rw [List.nil_append, hb, List.cons_append]⟩
    | cons e a' =>
      have h1 : c = e := (List.cons.injEq _ _ _ _ ▸ h).1
      have h2 : x' ++ '\n' :: y = a' ++ u ++ b := (List.cons.injEq _ _ _ _ ▸ h).2
      rcases ih y a' u b hu hne h2 with ⟨a'', b'', he⟩ | hr
      · exact Or.inl ⟨c :: a'', b'', by rw [he]; rfl⟩
      · exact Or.inr hr

theorem joinNl_infix_line : ∀ (ls : List (List Char)) (a u b : List Char),
    (∀ c ∈ u, c ≠ '\n') → u ≠ [] → joinNl ls = a ++ u ++ b →
    ∃ l ∈ ls, ∃ a' b', l = a' ++ u ++ b' := by
  intro ls
  induction ls with
  | nil =>
    intro a u b _ hne h
    rcases List.append_eq_nil.mp (show a ++ u ++ b = [] from h.symm) with ⟨h1, -⟩
    exact absurd (List.append_eq_nil.mp h1).2 hne
  | cons l ls' ih =>
    intro a u b hu hne h
    cases ls' with
    | nil =>
      have h2 : l = a ++ u ++ b := by
        have h3 : l ++ ([] : List Char) = a ++ u ++ b := h
        simpa using h3
      exact ⟨l, List.mem_cons_self l [], a, b, h2⟩
    | cons l2 ls'' =>
      have h2 : l ++ '\n' :: joinNl (l2 :: ls'') = a ++ u ++ b := h
      rcases infix_split_nl l (joinNl (l2 :: ls'')) a u b hu hne h2 with ⟨a', b', he⟩ | h3
      · exact ⟨l, List.mem_cons_self l _, a', b', he⟩
      · rcases h3 with ⟨a0, b0, h0⟩
        rcases ih a0 u b0 hu hne h0 with ⟨l0, hl0, a1, b1, he1⟩
        exact ⟨l0, List.mem_cons_of_mem l hl0, a1, b1, he1⟩

/-- C4 (amended): the artifact-removal pass deletes every (non-overlapping,
leftmost-first) `(cid:<digits>)` occurrence, and the output of clean_text is
artifact-free provided that single pass leaves no artifact behind (removal
inside nested or overlapping artifact-shaped text can mint a new one) and
the text it leaves has no hyphen-newline pair (hyphen rejoining can also
mint one).  The later stages never create an artifact. -/
theorem claimC4_output_artifact_free (s : List Char)
    (h1 : hasCidB (cidSub s) = false)
    (h2 : hasSub ['-', '\n'] (normR (normRN (cidSub s))) = false) :
    hasCidB (clean_text s) = false := by
  by_cases hnil : s = []
  · subst hnil; rfl
  · by_contra hcon
    rw [Bool.not_eq_false] at hcon
    rcases hasCidB_decomp _ hcon with ⟨ds, a, b, hds, hdef⟩
    have hclean : clean_text s = joinNl (dropBlankEnd
        (((pySplitlines (collapseNl (dehyph (normR (normRN (cidSub s)))))).map
          pyStrip).dropWhile List.isEmpty)) := by
      unfold clean_text
      rw [if_neg hnil]
    rw [hclean] at hdef
    have huNoNl : ∀ x ∈ cidArt ds, x ≠ '\n' := fun x hx => (cidArt_chars hds x hx).2
    have hne := cidArt_ne_nil ds
    rcases joinNl_infix_line _ a (cidArt ds) b huNoNl hne hdef with ⟨l, hl, a1, b1, hline⟩
    have hl2 : l ∈ (pySplitlines (collapseNl (dehyph (normR (normRN (cidSub s)))))).map pyStrip :=
      mem_of_dropWhile (mem_of_dropBlankEnd hl)
    rcases List.mem_map.mp hl2 with ⟨l0, hl0, rfl⟩
    have hinfix1 : ∃ u v, l0 = u ++ cidArt ds ++ v :=
      infix_trans_expl ⟨a1, b1, hline⟩ (pyStrip_decomp3 l0)
    have hl0' : l0 ∈ pySplitGo 0 []
        (collapseNl (dehyph (normR (normRN (cidSub s))))) := hl0
    have hinfix2 : ∃ u v,
        collapseNl (dehyph (normR (normRN (cidSub s)))) = u ++ cidArt ds ++ v := by
      rcases mem_pySplitGo_within
        (collapseNl (dehyph (normR (normRN (cidSub s))))).length _ [] l0
        (Nat.le_refl _) hl0' with ⟨a2, b2, he⟩
      rw [List.reverse_nil, List.nil_append] at he
      exact infix_trans_expl hinfix1 ⟨a2, b2, he⟩
    have hinfix3 : ∃ u v,
        dehyph (normR (normRN (cidSub s))) = u ++ cidArt ds ++ v := by
      rcases hinfix2 with ⟨a2, b2, he⟩
      exact infix_collapse (dehyph (normR (normRN (cidSub s)))).length _ a2 _ b2
        (Nat.le_refl _) huNoNl hne he
    rw [dehyph_id _ h2] at hinfix3
    have hinfix4 : ∃ u v, normRN (cidSub s) = u ++ cidArt ds ++ v := by
      rcases hinfix3 with ⟨a2, b2, he⟩
      exact infix_normR _ a2 _ b2 huNoNl hne he
    have hinfix5 : ∃ u v, cidSub s = u ++ cidArt ds ++ v := by
      rcases hinfix4 with ⟨a2, b2, he⟩
      exact infix_normRN (cidSub s).length _ a2 _ b2 (Nat.le_refl _)
        (cidArt_chars hds) hne he
    rcases hinfix5 with ⟨a2, b2, he⟩
    exact absurd (hasCidB_of_decomp a2 hds he) (by rw [h1]; simp)

/-- C4 witness: a document carrying one plain artifact satisfies both side
conditions, and its cleaned text is artifact-free. -/
theorem claimC4_output_artifact_free_witness :
    hasCidB (cidSub ("a(cid:123)b".toList)) = false ∧
    hasCidB (clean_text ("a(cid:123)b".toList)) = false :=
  ⟨by decide, claimC4_output_artifact_free _ (by decide) (by decide)⟩

/-! ### Interior blank-line runs (claim C6) -/

theorem cidChk_none {x : Char} {t : List Char} (hx : x ≠ '(') :
    cidChk (x :: t) = none := by
  unfold cidChk
  split
  · rename_i cc tt heq
    exact absurd (List.cons.injEq _ _ _ _ ▸ heq).1 hx
  · rfl

theorem hasCidB_no_paren : ∀ s : List Char, (∀ x ∈ s, x ≠ '(') → hasCidB s = false := by
  intro s
  induction s with
  | nil => intro _; rfl
  | cons c t ih =>
    intro h
    have hc : c ≠ '(' := h c (List.mem_cons_self c t)
    rw [show hasCidB (c :: t) = ((cidChk (c :: t)).isSome || hasCidB t) from rfl]
    rw [cidChk_none hc, ih fun x hx => h x (List.mem_cons_of_mem c hx)]
    rfl

theorem hasSub_no_hyphen : ∀ s : List Char, (∀ x ∈ s, x ≠ '-') →
    hasSub ['-', '\n'] s = false := by
  intro s
  induction s with
  | nil => intro _; rfl
  | cons c t ih =>
    intro h
    have hc : ('-' : Char) ≠ c := Ne.symm (h c (List.mem_cons_self c t))
    simp [hasSub, isPrefixB, hc, ih fun x hx => h x (List.mem_cons_of_mem c hx)]

theorem nlRun_rep (d : Char) (hd : d ≠ '\n') : ∀ m : Nat,
    nlRun (List.replicate m '\n' ++ [d]) = (m, [d]) := by
  intro m
  induction m with
  | zero => simp [nlRun, hd]
  | succ m ih =>
    rw [List.replicate_succ, List.cons_append]
    rw [show nlRun ('\n' :: (List.replicate m '\n' ++ [d])) =
      ((nlRun (List.replicate m '\n' ++ [d])).1 + 1,
       (nlRun (List.replicate m '\n' ++ [d])).2) from by simp [nlRun]]
    rw [ih]

theorem collapseNlGo_cons_plain {c : Char} (t : List Char) (hc : c ≠ '\n') :
    collapseNlGo 0 (c :: t) = c :: collapseNlGo 0 t := by
  simp [collapseNlGo, hc]

theorem collapseNl_two_lines (c d : Char) (k : Nat) (hc : c ≠ '\n') (hd : d ≠ '\n') :
    collapseNl (c :: (List.replicate k '\n' ++ [d])) =
      c :: ((if 3 ≤ k then ['\n', '\n'] else List.replicate k '\n') ++ [d]) := by
  unfold collapseNl
  rw [collapseNlGo_cons_plain _ hc]
  cases k with
  | zero =>
    rw [show List.replicate 0 '\n' ++ [d] = [d] from rfl]
    rw [collapseNlGo_cons_plain _ hd]
    rfl
  | succ m =>
    rw [List.replicate_succ, List.cons_append, collapseNlGo_cons_nl]
    simp only [nlBlock]
    rw [nlRun_rep d hd m]
    rw [collapseNlGo_skip m (List.replicate m '\n' ++ [d]),
      drop_replicate_append m '\n' [d], collapseNlGo_cons_plain _ hd]
    by_cases h3 : 3 ≤ m + 1
    · rw [if_pos (show m + 1 ≥ 3 from h3)]
      rfl
    · rw [if_neg (show ¬(m + 1 ≥ 3) from h3)]
      simp [List.replicate_succ, show collapseNlGo 0 ([] : List Char) = [] from rfl]

theorem pySplitGo_plain {c : Char} (cur t : List Char) (h1 : c ≠ '\r')
    (h2 : isLineBreakChar c = false) :
    pySplitGo 0 cur (c :: t) = pySplitGo 0 (c :: cur) t := by
  simp [pySplitGo, h1, h2]

theorem pySplitGo_nl (cur t : List Char) :
    pySplitGo 0 cur ('\n' :: t) = cur.reverse :: pySplitGo 0 [] t := by
  simp [pySplitGo, isLineBreakChar]

theorem pySplit_run (d : Char) (hdr : d ≠ '\r') (hdb : isLineBreakChar d = false) :
    ∀ m : Nat, pySplitGo 0 [] (List.replicate m '\n' ++ [d]) =
      List.replicate m ([] : List Char) ++ [[d]] := by
  intro m
  induction m with
  | zero =>
    rw [show List.replicate 0 '\n' ++ [d] = [d] from rfl]
    rw [pySplitGo_plain [] [] hdr hdb]
    rfl
  | succ m ih =>
    rw [List.replicate_succ, List.cons_append, pySplitGo_nl, ih]
    rfl

theorem pyStrip_nil : pyStrip [] = [] := rfl

theorem pyStrip_single {x : Char} (hx : isPyWs x = false) : pyStrip [x] = [x] := by
  simp [pyStrip, List.dropWhile_cons, hx]

theorem pyStrip_pair {x y : Char} (hx : isPyWs x = false) (hy : isPyWs y = false) :
    pyStrip [x, y] = [x, y] := by
  simp [pyStrip, List.dropWhile_cons, hx, hy]

theorem dropBlankEnd_snoc (ls : List (List Char)) (l : List Char) (h : l ≠ []) :
    dropBlankEnd (ls ++ [l]) = ls ++ [l] := by
  have hl : l.isEmpty = false := by
    cases l with
    | nil => exact absurd rfl h
    | cons a t => rfl
  unfold dropBlankEnd
  rw [List.reverse_append, List.reverse_singleton, List.singleton_append,
    List.dropWhile_cons_of_neg (by simp [hl])]
  simp

theorem joinNl_blank_run (d : Char) : ∀ m : Nat,
    joinNl (List.replicate m ([] : List Char) ++ [[d]]) =
      List.replicate m '\n' ++ [d] := by
  intro m
  induction m with
  | zero => simp [joinNl]
  | succ m ih =>
    rw [List.replicate_succ, List.cons_append]
    have hne : (List.replicate m ([] : List Char) ++ [[d]]).isEmpty = false := by
      simp [List.isEmpty_iff]
    rw [show joinNl (([] : List Char) ::
        (List.replicate m ([] : List Char) ++ [[d]])) =
      [] ++ (if (List.replicate m ([] : List Char) ++ [[d]]).isEmpty then []
        else '\n' :: joinNl (List.replicate m ([] : List Char) ++ [[d]])) from rfl]
    rw [hne, ih]
    simp [List.replicate_succ]

theorem tailStages_shape (c d : Char) (j : Nat)
    (hcw : isPyWs c = false) (hcb : isLineBreakChar c = false)
    (hdw : isPyWs d = false) (hdb : isLineBreakChar d = false) :
    joinNl (dropBlankEnd (((pySplitlines (c :: (List.replicate j '\n' ++ [d]))).map
      pyStrip).dropWhile List.isEmpty)) = c :: (List.replicate j '\n' ++ [d]) := by
  have hcr : c ≠ '\r' := by intro e; subst e; exact absurd hcb (by decide)
  have hdr : d ≠ '\r' := by intro e; subst e; exact absurd hdb (by decide)
  cases j with
  | zero =>
    rw [show List.replicate 0 '\n' ++ [d] = [d] from rfl]
    rw [show pySplitlines (c :: [d]) = pySplitGo 0 [] (c :: [d]) from rfl]
    rw [pySplitGo_plain [] [d] hcr hcb, pySplitGo_plain [c] [] hdr hdb]
    rw [show pySplitGo 0 (d :: [c]) [] = [[c, d]] from rfl]
    rw [show ([[c, d]].map pyStrip) = [pyStrip [c, d]] from rfl]
    rw [pyStrip_pair hcw hdw]
    rw [List.dropWhile_cons_of_neg (by simp)]
    rw [show ([[c, d]] : List (List Char)) = [] ++ [[c, d]] from rfl]
    rw [dropBlankEnd_snoc [] [c, d] (by simp)]
    simp [joinNl]
  | succ m =>
    rw [List.replicate_succ, List.cons_append]
    rw [show pySplitlines (c :: '\n' :: (List.replicate m '\n' ++ [d])) =
      pySplitGo 0 [] (c :: '\n' :: (List.replicate m '\n' ++ [d])) from rfl]
    rw [pySplitGo_plain [] _ hcr hcb, pySplitGo_nl [c] _, pySplit_run d hdr hdb m]
    rw [show ([c] : List Char).reverse = [c] from rfl]
    rw [List.map_cons, List.map_append, List.map_replicate]
    rw [pyStrip_single hcw, pyStrip_nil]
    rw [show ([d] :: ([] : List (List Char))).map pyStrip = [pyStrip [d]] from rfl]
    rw [pyStrip_single hdw]
    rw [List.dropWhile_cons_of_neg (by simp)]
    rw [show ([c] :: (List.replicate m ([] : List Char) ++ [[d]])) =
      ([c] :: List.replicate m ([] : List Char)) ++ [[d]] from rfl]
    rw [dropBlankEnd_snoc _ [d] (by simp)]
    rw [show (([c] :: List.replicate m ([] : List Char)) ++ [[d]]) =
      [c] :: (List.replicate m ([] : List Char) ++ [[d]]) from rfl]
    have hne : (List.replicate m ([] : List Char) ++ [[d]]).isEmpty = false := by
      simp [List.isEmpty_iff]
    rw [show joinNl ([c] :: (List.replicate m ([] : List Char) ++ [[d]])) =
      [c] ++ (if (List.replicate m ([] : List Char) ++ [[d]]).isEmpty then []
        else '\n' :: joinNl (List.replicate m ([] : List Char) ++ [[d]])) from rfl]
    rw [hne, joinNl_blank_run d m]
    simp

/-- C6 (amended): for two plain non-blank one-character lines separated by a
run of `k` newlines (`k - 1` interior blank lines), clean_text collapses the
run to exactly two newlines (one blank line) as soon as `k ≥ 3` — i.e.
already at two consecutive blank lines, not three — and keeps the run
unchanged for `k ≤ 2` (at most one blank line). -/
theorem claimC6_newline_run_collapse (c d : Char) (k : Nat)
    (hcw : isPyWs c = false) (hcb : isLineBreakChar c = false)
    (hcp : c ≠ '(') (hch : c ≠ '-')
    (hdw : isPyWs d = false) (hdb : isLineBreakChar d = false)
    (hdp : d ≠ '(') (hdh : d ≠ '-') :
    clean_text (c :: (List.replicate k '\n' ++ [d])) =
      c :: ((if 3 ≤ k then ['\n', '\n'] else List.replicate k '\n') ++ [d]) := by
  have hcn : c ≠ '\n' := by intro e; subst e; exact absurd hcb (by decide)
  have hdn : d ≠ '\n' := by intro e; subst e; exact absurd hdb (by decide)
  have hcr : c ≠ '\r' := by intro e; subst e; exact absurd hcb (by decide)
  have hdr : d ≠ '\r' := by intro e; subst e; exact absurd hdb (by decide)
  have hmem : ∀ x ∈ c :: (List.replicate k '\n' ++ [d]), x = c ∨ x = '\n' ∨ x = d := by
    intro x hx
    rcases List.mem_cons.mp hx with h | h
    · exact Or.inl h
    · rcases List.mem_append.mp h with h2 | h2
      · exact Or.inr (Or.inl (List.eq_of_mem_replicate h2))
      · exact Or.inr (Or.inr (by simpa using h2))
  have h1 : hasCidB (c :: (List.replicate k '\n' ++ [d])) = false :=
    hasCidB_no_paren _ fun x hx => by
      rcases hmem x hx with h | h | h
      · subst h; exact hcp
      · subst h; decide
      · subst h; exact hdp
  have hcrm : '\r' ∉ (c :: (List.replicate k '\n' ++ [d])) := by
    intro hm
    rcases hmem _ hm with h | h | h
    · exact hcr h.symm
    · exact absurd h (by decide)
    · exact hdr h.symm
  have h2 : hasSub ['-', '\n'] (c :: (List.replicate k '\n' ++ [d])) = false :=
    hasSub_no_hyphen _ fun x hx => by
      rcases hmem x hx with h | h | h
      · subst h; exact hch
      · subst h; decide
      · subst h; exact hdh
  have hnil : (c :: (List.replicate k '\n' ++ [d])) ≠ [] := by simp
  unfold clean_text
  rw [if_neg hnil]
  show joinNl (dropBlankEnd (((pySplitlines (collapseNl (dehyph (normR (normRN
    (cidSub (c :: (List.replicate k '\n' ++ [d])))))))).map pyStrip).dropWhile
    List.isEmpty)) = _
  rw [cidSub_id h1, normRN_id _ hcrm, normR_id _ hcrm, dehyph_id _ h2,
    collapseNl_two_lines c d k hcn hdn]
  by_cases h3 : 3 ≤ k
  · rw [if_pos h3]
    exact tailStages_shape c d 2 hcw hcb hdw hdb
  · rw [if_neg h3]
    exact tailStages_shape c d k hcw hcb hdw hdb

/-- C6 witness: four newlines (three blank lines) between `a` and `b`
collapse to one blank line. -/
theorem claimC6_newline_run_collapse_witness :
    clean_text ('a' :: (List.replicate 4 '\n' ++ ['b'])) =
      'a' :: ((if 3 ≤ 4 then ['\n', '\n'] else List.replicate 4 '\n') ++ ['b']) :=
  claimC6_newline_run_collapse 'a' 'b' 4 (by decide) (by decide) (by decide)
    (by decide) (by decide) (by decide) (by decide) (by decide)

/-! ### Line counting through the reconstructor (claim C7) -/

theorem splitNl_cons_nl (t : List Char) : splitNl ('\n' :: t) = [] :: splitNl t := by
  simp [splitNl]

theorem splitNl_cons_ch {c : Char} {t l : List Char} {rest : List (List Char)}
    (hc : c ≠ '\n') (hs : splitNl t = l :: rest) :
    splitNl (c :: t) = (c :: l) :: rest := by
  simp [splitNl, hc, hs]

theorem splitNl_shape : ∀ t : List Char, ∃ l rest, splitNl t = l :: rest := by
  intro t
  cases t with
  | nil => exact ⟨[], [], rfl⟩
  | cons c t =>
    by_cases hc : c = '\n'
    · subst hc
      exact ⟨[], splitNl t, splitNl_cons_nl t⟩
    · rcases hsp : splitNl t with _ | ⟨l, rest⟩
      · exact ⟨[c], [], by simp [splitNl, hc, hsp]⟩
      · exact ⟨c :: l, rest, splitNl_cons_ch hc hsp⟩

theorem countTextLines_cons_ws {c : Char} (t : List Char) (hc : isPyWs c = true) :
    countTextLines (c :: t) = countTextLines t := by
  by_cases hn : c = '\n'
  · subst hn
    simp [countTextLines, splitNl_cons_nl]
  · rcases splitNl_shape t with ⟨l, rest, hs⟩
    rw [countTextLines, countTextLines, splitNl_cons_ch hn hs, hs]
    simp only [List.filter_cons, List.any_cons, hc, Bool.not_true, Bool.false_or]
    split <;> simp

theorem countTextLines_dropWhile : ∀ t : List Char,
    countTextLines (t.dropWhile isPyWs) = countTextLines t := by
  intro t
  induction t with
  | nil => rfl
  | cons c t ih =>
    by_cases hc : isPyWs c = true
    · rw [List.dropWhile_cons_of_pos hc, ih, countTextLines_cons_ws t hc]
    · rw [List.dropWhile_cons_of_neg (by simp [hc])]

theorem splitNl_snoc_nl : ∀ u : List Char, splitNl (u ++ ['\n']) = splitNl u ++ [[]] := by
  intro u
  induction u with
  | nil => rfl
  | cons c u ih =>
    by_cases hc : c = '\n'
    · subst hc
      rw [List.cons_append, splitNl_cons_nl, splitNl_cons_nl, ih]
      rfl
    · rcases splitNl_shape u with ⟨l, rest, hs⟩
      have hs2 : splitNl (u ++ ['\n']) = l :: (rest ++ [[]]) := by
        rw [ih, hs]; rfl
      rw [List.cons_append, splitNl_cons_ch hc hs2, splitNl_cons_ch hc hs]
      rfl

theorem splitNl_snoc_ch : ∀ (u : List Char) {c : Char}, c ≠ '\n' →
    ∀ {l : List Char} {rest : List (List Char)}, splitNl u = rest ++ [l] →
    splitNl (u ++ [c]) = rest ++ [l ++ [c]] := by
  intro u
  induction u with
  | nil =>
    intro c hc l rest h
    have h0 : ([[]] : List (List Char)) = rest ++ [l] := by simpa [splitNl] using h
    cases rest with
    | cons r rest' =>
      have := congrArg List.length h0
      simp at this
    | nil =>
      have hl : l = [] := by
        have h2 := (List.cons.injEq _ _ _ _ ▸
          (show ([[]] : List (List Char)) = [l] from by simpa using h0)).1
        exact h2.symm
      subst hl
      simp [splitNl, hc]
  | cons d u' ih =>
    intro c hc l rest h
    by_cases hd : d = '\n'
    · subst hd
      rw [splitNl_cons_nl] at h
      cases rest with
      | nil =>
        have h1 : ([] : List Char) = l ∧ splitNl u' = [] := by
          constructor
          · exact (List.cons.injEq _ _ _ _ ▸ h).1
          · exact (List.cons.injEq _ _ _ _ ▸ h).2
        rcases splitNl_shape u' with ⟨x, xs, hx⟩
        rw [hx] at h1
        exact absurd h1.2 (by simp)
      | cons r rest' =>
        have h1 : ([] : List Char) = r ∧ splitNl u' = rest' ++ [l] := by
          constructor
          · exact (List.cons.injEq _ _ _ _ ▸ h).1
          · exact (List.cons.injEq _ _ _ _ ▸ h).2
        rw [List.cons_append, splitNl_cons_nl, ih hc h1.2, ← h1.1]
        rfl
    · rcases splitNl_shape u' with ⟨l0, rest0, hs0⟩
      rw [splitNl_cons_ch hd hs0] at h
      cases rest with
      | nil =>
        have h1 : d :: l0 = l ∧ rest0 = [] := by
          constructor
          · exact (List.cons.injEq _ _ _ _ ▸ h).1
          · exact (List.cons.injEq _ _ _ _ ▸ h).2
        have hsp2 : splitNl (u' ++ [c]) = [] ++ [l0 ++ [c]] := by
          apply ih hc
          rw [hs0, h1.2]
          rfl
        rw [List.nil_append] at hsp2
        rw [List.cons_append, splitNl_cons_ch hd hsp2, ← h1.1]
        rfl
      | cons r rest' =>
        have h1 : d :: l0 = r ∧ rest0 = rest' ++ [l] := by
          constructor
          · exact (List.cons.injEq _ _ _ _ ▸ h).1
          · exact (List.cons.injEq _ _ _ _ ▸ h).2
        have hsp2 : splitNl (u' ++ [c]) = (l0 :: rest') ++ [l ++ [c]] := by
          apply ih hc
          rw [hs0, h1.2]
          rfl
        have hsp2' : splitNl (u' ++ [c]) = l0 :: (rest' ++ [l ++ [c]]) := by
          rw [hsp2]; rfl
        rw [List.cons_append, splitNl_cons_ch hd hsp2', ← h1.1]
        rfl

theorem splitNl_reverse : ∀ t : List Char,
    splitNl t.reverse = ((splitNl t).map List.reverse).reverse := by
  intro t
  induction t with
  | nil => rfl
  | cons c t ih =>
    rw [List.reverse_cons]
    by_cases hc : c = '\n'
    · subst hc
      rw [splitNl_snoc_nl, ih, splitNl_cons_nl]
      simp
    · rcases splitNl_shape t with ⟨l, rest, hs⟩
      have hrev : splitNl t.reverse = ((rest.map List.reverse).reverse) ++ [l.reverse] := by
        rw [ih, hs]
        simp
      rw [splitNl_snoc_ch t.reverse hc hrev, splitNl_cons_ch hc hs]
      simp

theorem countTextLines_reverse (t : List Char) :
    countTextLines t.reverse = countTextLines t := by
  rw [countTextLines, countTextLines, splitNl_reverse]
  rw [List.filter_reverse, List.length_reverse, List.filter_map]
  rw [List.length_map]
  have he : ∀ x ∈ splitNl t,
      ((fun l => l.any fun c => !isPyWs c) ∘ List.reverse) x =
        (fun l => l.any fun c => !isPyWs c) x := by
    intro x _
    simp [Function.comp, List.any_reverse]
  rw [List.filter_congr he]

theorem countTextLines_pyStrip (t : List Char) :
    countTextLines (pyStrip t) = countTextLines t := by
  unfold pyStrip
  rw [countTextLines_reverse, countTextLines_dropWhile, countTextLines_reverse,
    countTextLines_dropWhile]

theorem splitNl_no_nl : ∀ l : List Char, '\n' ∉ l → splitNl l = [l] := by
  intro l
  induction l with
  | nil => intro _; rfl
  | cons c t ih =>
    intro h
    have hc : c ≠ '\n' := fun e => h (by simp [e])
    have ht : '\n' ∉ t := fun m => h (List.mem_cons_of_mem c m)
    exact splitNl_cons_ch hc (ih ht)

theorem splitNl_append_nl : ∀ (l r : List Char), '\n' ∉ l →
    splitNl (l ++ '\n' :: r) = l :: splitNl r := by
  intro l
  induction l with
  | nil => intro r _; rw [List.nil_append, splitNl_cons_nl]
  | cons c t ih =>
    intro r h
    have hc : c ≠ '\n' := fun e => h (by simp [e])
    have ht : '\n' ∉ t := fun m => h (List.mem_cons_of_mem c m)
    rw [List.cons_append, splitNl_cons_ch hc (ih r ht)]

theorem splitNl_joinNl : ∀ L : List (List Char), L ≠ [] → (∀ l ∈ L, '\n' ∉ l) →
    splitNl (joinNl L) = L := by
  intro L
  induction L with
  | nil => intro h; exact absurd rfl h
  | cons l L' ih =>
    intro _ hmem
    cases L' with
    | nil =>
      rw [show joinNl [l] = l ++ [] from rfl, List.append_nil]
      exact splitNl_no_nl l (hmem l (by simp))
    | cons l2 L'' =>
      rw [show joinNl (l :: l2 :: L'') = l ++ '\n' :: joinNl (l2 :: L'') from by
        simp [joinNl]]
      rw [splitNl_append_nl _ _ (hmem l (by simp))]
      rw [ih (by simp) fun x hx => hmem x (List.mem_cons_of_mem l hx)]

theorem length_insertLine (x : (Int × Int) × List Char) :
    ∀ ys, (insertLine x ys).length = ys.length + 1 := by
  intro ys
  induction ys with
  | nil => rfl
  | cons y ys ih =>
    by_cases h : keyLt y.1 x.1 = true
    · simp [insertLine, h, ih]
    · simp [insertLine, h]

theorem length_sortLines : ∀ xs, (sortLines xs).length = xs.length := by
  intro xs
  induction xs with
  | nil => rfl
  | cons x xs ih => simp [sortLines, length_insertLine, ih]

theorem mem_insertLine {x y : (Int × Int) × List Char} :
    ∀ ys, y ∈ insertLine x ys → y = x ∨ y ∈ ys := by
  intro ys
  induction ys with
  | nil => intro h; simp [insertLine] at h; exact Or.inl h
  | cons z zs ih =>
    intro h
    by_cases hk : keyLt z.1 x.1 = true
    · rw [insertLine, if_pos hk] at h
      rcases List.mem_cons.mp h with h2 | h2
      · exact Or.inr (by simp [h2])
      · rcases ih h2 with h3 | h3
        · exact Or.inl h3
        · exact Or.inr (List.mem_cons_of_mem z h3)
    · rw [insertLine, if_neg hk] at h
      rcases List.mem_cons.mp h with h2 | h2
      · exact Or.inl h2
      · exact Or.inr h2

theorem mem_sortLines {y : (Int × Int) × List Char} :
    ∀ xs, y ∈ sortLines xs → y ∈ xs := by
  intro xs
  induction xs with
  | nil => intro h; exact absurd h (List.not_mem_nil y)
  | cons x xs ih =>
    intro h
    rcases mem_insertLine _ h with h2 | h2
    · exact h2 ▸ List.mem_cons_self x xs
    · exact List.mem_cons_of_mem x (ih h2)

theorem mem_pageLines {page : List OcrItem} {l : List Char} (h : l ∈ pageLines page) :
    ∃ it ∈ page, it.text = l ∧ l ≠ [] := by
  unfold pageLines at h
  rcases List.mem_map.mp h with ⟨pr, hpr, hsnd⟩
  rcases List.mem_map.mp (mem_sortLines _ hpr) with ⟨it, hit, hpair⟩
  have hfil := List.mem_filter.mp hit
  have hte : it.text = l := by
    rw [← hsnd, ← hpair]
  refine ⟨it, hfil.1, hte, ?_⟩
  rw [← hte]
  simpa using hfil.2

theorem pageLines_length (page : List OcrItem) :
    (pageLines page).length = (page.filter fun it => it.text ≠ []).length := by
  unfold pageLines
  rw [List.length_map, length_sortLines, List.length_map]

/-- All lines contributed by the pages, in order, with the form-feed marker
line after each page. -/
def allLines (pages : List (List OcrItem)) : List (List Char) :=
  pages.foldr (fun page acc => pageLines page ++ ['\x0c'] :: acc) []

theorem allLines_ne_nil (pages : List (List OcrItem)) (h : pages ≠ []) :
    allLines pages ≠ [] := by
  cases pages with
  | nil => exact absurd rfl h
  | cons p ps =>
    rw [show allLines (p :: ps) = pageLines p ++ ['\x0c'] :: allLines ps from rfl]
    simp

theorem mem_allLines {l : List Char} : ∀ pages : List (List OcrItem),
    l ∈ allLines pages → (∃ page ∈ pages, l ∈ pageLines page) ∨ l = ['\x0c'] := by
  intro pages
  induction pages with
  | nil => intro h; exact absurd h (List.not_mem_nil l)
  | cons p ps ih =>
    intro h
    rw [show allLines (p :: ps) = pageLines p ++ ['\x0c'] :: allLines ps from rfl] at h
    rcases List.mem_append.mp h with h2 | h2
    · exact Or.inl ⟨p, List.mem_cons_self p ps, h2⟩
    · rcases List.mem_cons.mp h2 with h3 | h3
      · exact Or.inr h3
      · rcases ih h3 with ⟨pg, hpg, hl⟩ | h4
        · exact Or.inl ⟨pg, List.mem_cons_of_mem p hpg, hl⟩
        · exact Or.inr h4

theorem filter_length_allLines : ∀ pages : List (List OcrItem),
    (∀ page ∈ pages, ∀ it ∈ page, it.text ≠ [] →
      (it.text.any fun c => !isPyWs c) = true) →
    ((allLines pages).filter fun l => l.any fun c => !isPyWs c).length =
      (pages.map fun page => (page.filter fun it => it.text ≠ []).length).sum := by
  intro pages
  induction pages with
  | nil => intro _; rfl
  | cons p ps ih =>
    intro h
    rw [show allLines (p :: ps) = pageLines p ++ ['\x0c'] :: allLines ps from rfl]
    rw [List.filter_append, List.length_append]
    have h1 : ((pageLines p).filter fun l => l.any fun c => !isPyWs c) = pageLines p := by
      apply List.filter_eq_self.mpr
      intro l hl
      rcases mem_pageLines hl with ⟨it, hit, he, hne⟩
      have hne' : it.text ≠ [] := by rw [he]; exact hne
      have := h p (List.mem_cons_self p ps) it hit hne'
      rw [← he]
      exact this
    have h2 : ((['\x0c'] :: allLines ps).filter fun l => l.any fun c => !isPyWs c) =
        (allLines ps).filter fun l => l.any fun c => !isPyWs c := by
      rw [List.filter_cons_of_neg (by decide)]
    rw [h1, h2, pageLines_length, ih fun page hpg => h page (List.mem_cons_of_mem p hpg)]
    rw [List.map_cons, List.sum_cons]

/-- The C7 counterexample pages: one page whose OCR returned one real line
and one whitespace-only line. -/
def c7CxPages : List (List OcrItem) := [[⟨none, ['a']⟩, ⟨none, [' ']⟩]]

/-- C7 counterexample: the engine keeps every item with *truthy* text, so a
whitespace-only item is kept, yet the final strip deletes it: two items
have non-empty text but the output is the single line `a` (one line under
any line count, text lines or raw lines). -/
theorem claimC7_cx :
    ((c7CxPages.map fun page => (page.filter fun it => it.text ≠ []).length).sum = 2) ∧
    run_ocr_on_images c7CxPages = ['a'] ∧
    countTextLines (run_ocr_on_images c7CxPages) = 1 := by decide

/-- C7 (amended): when every OCR item's text is a real line — non-empty
text contains a non-whitespace character and no newline — the number of
text lines (lines with a non-whitespace character; blank and form-feed
marker lines excluded) of the reconstructor's output equals the number of
items with non-empty text.  Whitespace-only or multi-line item texts break
the equality. -/
theorem claimC7_text_line_count (pages : List (List OcrItem))
    (hnl : ∀ page ∈ pages, ∀ it ∈ page, '\n' ∉ it.text)
    (hws : ∀ page ∈ pages, ∀ it ∈ page, it.text ≠ [] →
      (it.text.any fun c => !isPyWs c) = true) :
    countTextLines (run_ocr_on_images pages) =
      (pages.map fun page => (page.filter fun it => it.text ≠ []).length).sum := by
  cases hps : pages with
  | nil => rfl
  | cons p ps =>
    subst hps
    have hpe : ((p :: ps : List (List OcrItem)).isEmpty) = false := rfl
    have hrun : run_ocr_on_images (p :: ps) = pyStrip (joinNl (allLines (p :: ps))) := by
      unfold run_ocr_on_images allLines
      rw [if_neg (by simp)]
    have hLnil : allLines (p :: ps) ≠ [] := allLines_ne_nil _ (by simp)
    have hLnl : ∀ l ∈ allLines (p :: ps), '\n' ∉ l := by
      intro l hl
      rcases mem_allLines _ hl with ⟨pg, hpg, hlp⟩ | hmark
      · rcases mem_pageLines hlp with ⟨it, hit, he, _⟩
        rw [← he]
        exact hnl pg hpg it hit
      · rw [hmark]
        decide
    rw [hrun, countTextLines_pyStrip, countTextLines,
      splitNl_joinNl _ hLnil hLnl, filter_length_allLines _ hws]

/-- C7 witness: two pages, one item with empty text discarded, two real
lines kept. -/
theorem claimC7_text_line_count_witness :
    countTextLines (run_ocr_on_images
        [[⟨none, ['h', 'i']⟩, ⟨none, []⟩], [⟨none, ['y']⟩]]) =
      (([[⟨none, ['h', 'i']⟩, ⟨none, []⟩], [⟨none, ['y']⟩]] : List (List OcrItem)).map
        fun page => (page.filter fun it => it.text ≠ []).length).sum :=
  claimC7_text_line_count _ (by decide) (by decide)

/-! ### process_pdf results (claims C8, C9) -/

/-- C8: when rasterisation yields zero page images, process_pdf returns the
fixed FAILED record whose error is the no-images message — an equality that
holds for every OCR stage and preprocessor, so neither is consulted — with
Status FAILED, a non-empty error message, and the message mentions
"no images" (case-insensitively). -/
theorem claimC8_no_images {Img : Type} (st : Stages Img) (filename : List Char)
    (h : st.convert = .ok []) :
    process_pdf st filename =
      [("Filename", filename), ("Status", "FAILED".toList),
       ("Error", noImagesMsg.toList)] ∧
    lookupKV (process_pdf st filename) "Status" = some ("FAILED".toList) ∧
    lookupKV (process_pdf st filename) "Error" = some noImagesMsg.toList ∧
    noImagesMsg.toList ≠ [] ∧
    hasSub ("no images".toList) (noImagesMsg.toList.map Char.toLower) = true := by
  have e : process_pdf st filename =
      [("Filename", filename), ("Status", "FAILED".toList),
       ("Error", noImagesMsg.toList)] := by
    unfold process_pdf
    rw [h]
    rfl
  refine ⟨e, ?_, ?_, by decide, by decide⟩
  · rw [e]; rfl
  · rw [e]; rfl

/-- C8 witness: concrete stages whose conversion returns an empty image
list. -/
theorem claimC8_no_images_witness :
    process_pdf (⟨.ok [], id, fun _ => .ok []⟩ : Stages Unit) ("a.pdf".toList) =
      [("Filename", "a.pdf".toList), ("Status", "FAILED".toList),
       ("Error", noImagesMsg.toList)] :=
  (claimC8_no_images (⟨.ok [], id, fun _ => .ok []⟩ : Stages Unit)
    ("a.pdf".toList) rfl).1

theorem setKV_fresh (m : List (String × List Char)) (k : String) (v : List Char)
    (h : (m.any fun p => p.1 = k) = false) : setKV m k v = m ++ [(k, v)] := by
  unfold setKV
  rw [if_neg (by simp [h])]

theorem dictUpdate_fresh : ∀ (F m : List (String × List Char)),
    (∀ p ∈ F, (m.any fun q => q.1 = p.1) = false) →
    (F.map Prod.fst).Nodup → dictUpdate m F = m ++ F := by
  intro F
  induction F with
  | nil => intro m _ _; simp [dictUpdate]
  | cons p F' ih =>
    intro m hfresh hnd
    rw [show dictUpdate m (p :: F') = dictUpdate (setKV m p.1 p.2) F' from rfl]
    rw [setKV_fresh m p.1 p.2 (hfresh p (List.mem_cons_self p F'))]
    have hnd' : (F'.map Prod.fst).Nodup := by
      rw [List.map_cons] at hnd
      exact hnd.of_cons
    have hnotmem : p.1 ∉ F'.map Prod.fst := by
      rw [List.map_cons] at hnd
      exact (List.nodup_cons.mp hnd).1
    have hfresh' : ∀ q ∈ F',
        (((m ++ [(p.1, p.2)]).any fun r => r.1 = q.1) = false) := by
      intro q hq
      rw [List.any_append]
      simp only [Bool.or_eq_false_iff]
      refine ⟨hfresh q (List.mem_cons_of_mem p hq), ?_⟩
      simp only [List.any_cons, List.any_nil, Bool.or_false]
      have hpq : p.1 ≠ q.1 := fun e => hnotmem (e ▸ List.mem_map_of_mem Prod.fst hq)
      simp [hpq]
    rw [ih (m ++ [(p.1, p.2)]) hfresh' hnd', List.append_assoc]
    rfl

theorem map_setKV_id (k : String) (v : List Char) :
    ∀ F : List (String × List Char), (∀ p ∈ F, p.1 ≠ k) →
    (F.map fun p => if p.1 = k then (p.1, v) else p) = F := by
  intro F
  induction F with
  | nil => intro _; rfl
  | cons p F' ih =>
    intro h
    rw [List.map_cons, if_neg (h p (List.mem_cons_self p F')),
      ih fun q hq => h q (List.mem_cons_of_mem p hq)]

/-- The keys of the extractor record are the schema keys, in order. -/
theorem parse_keys (text : List Char) :
    (parse_fir_fields text).map Prod.fst = firSchemaKeys := rfl

theorem process_success_dict (filename text : List Char) :
    setKV (dictUpdate [("Filename", filename), ("Status", "FAILED".toList),
      ("Error", ([] : List Char))] (parse_fir_fields text)) "Status" ("SUCCESS".toList) =
    ("Filename", filename) :: ("Status", "SUCCESS".toList) ::
      ("Error", ([] : List Char)) :: parse_fir_fields text := by
  have hkeysne : ∀ k ∈ firSchemaKeys,
      ("Filename" ≠ k ∧ "Status" ≠ k ∧ "Error" ≠ k) := by decide
  have hfresh : ∀ p ∈ parse_fir_fields text,
      (([("Filename", filename), ("Status", "FAILED".toList),
        ("Error", ([] : List Char))].any fun q => q.1 = p.1) = false) := by
    intro p hp
    have h1 : p.1 ∈ firSchemaKeys := by
      rw [← parse_keys text]
      exact List.mem_map_of_mem Prod.fst hp
    have h2 := hkeysne p.1 h1
    simp [List.any_cons, h2.1, h2.2.1, h2.2.2]
  have hnd : ((parse_fir_fields text).map Prod.fst).Nodup := by
    rw [parse_keys text]
    decide
  rw [dictUpdate_fresh _ _ hfresh hnd]
  have hpos : (([("Filename", filename), ("Status", "FAILED".toList),
      ("Error", ([] : List Char))] ++ parse_fir_fields text).any
        fun p => p.1 = "Status") = true := by
    rw [List.any_append]
    have h3 : ([("Filename", filename), ("Status", "FAILED".toList),
        ("Error", ([] : List Char))].any fun p => p.1 = "Status") = true := by
      simp [List.any_cons]
    rw [h3]
    rfl
  rw [setKV, if_pos hpos, List.map_append]
  have hmapR : ([("Filename", filename), ("Status", "FAILED".toList),
      ("Error", ([] : List Char))].map fun p =>
        if p.1 = "Status" then (p.1, "SUCCESS".toList) else p) =
      [("Filename", filename), ("Status", "SUCCESS".toList),
       ("Error", ([] : List Char))] := rfl
  have hmapF : ((parse_fir_fields text).map fun p =>
      if p.1 = "Status" then (p.1, "SUCCESS".toList) else p) = parse_fir_fields text := by
    apply map_setKV_id
    intro p hp
    have h1 : p.1 ∈ firSchemaKeys := by
      rw [← parse_keys text]
      exact List.mem_map_of_mem Prod.fst hp
    exact fun e => (hkeysne p.1 h1).2.1 e.symm
  rw [hmapR, hmapF]
  rfl

theorem c9_dict_failed (filename err : List Char) (D : List (String × List Char))
    (hd : D = [("Filename", filename), ("Status", "FAILED".toList), ("Error", err)]) :
    ∃ status error,
      lookupKV D "Filename" = some filename ∧
      lookupKV D "Status" = some status ∧
      lookupKV D "Error" = some error ∧
      (status = "SUCCESS".toList ∨ status = "FAILED".toList) ∧
      (status = "SUCCESS".toList → error = [] ∧
        ∀ f ∈ firSchemaKeys, ∃ v, lookupKV D f = some v) ∧
      (status = "FAILED".toList → ∀ f ∈ firSchemaKeys, lookupKV D f = none) := by
  subst hd
  refine ⟨"FAILED".toList, err, rfl, rfl, rfl, Or.inr rfl, ?_, ?_⟩
  · intro hs; exact absurd hs (by decide)
  · intro _ f hf
    simp only [firSchemaKeys] at hf
    fin_cases hf <;> rfl

theorem c9_dict_success (filename text : List Char) (D : List (String × List Char))
    (hd : D = ("Filename", filename) :: ("Status", "SUCCESS".toList) ::
      ("Error", ([] : List Char)) :: parse_fir_fields text) :
    ∃ status error,
      lookupKV D "Filename" = some filename ∧
      lookupKV D "Status" = some status ∧
      lookupKV D "Error" = some error ∧
      (status = "SUCCESS".toList ∨ status = "FAILED".toList) ∧
      (status = "SUCCESS".toList → error = [] ∧
        ∀ f ∈ firSchemaKeys, ∃ v, lookupKV D f = some v) ∧
      (status = "FAILED".toList → ∀ f ∈ firSchemaKeys, lookupKV D f = none) := by
  subst hd
  refine ⟨"SUCCESS".toList, [], rfl, rfl, rfl, Or.inl rfl, ?_, ?_⟩
  · intro _
    refine ⟨rfl, ?_⟩
    intro f hf
    simp only [firSchemaKeys] at hf
    fin_cases hf <;> exact ⟨_, rfl⟩
  · intro hs; exact absurd hs (by decide)

/-- C9: every record process_pdf returns carries Filename, Status and Error;
Status is SUCCESS or FAILED; on SUCCESS the error is empty and all 26
extractor fields are present; on FAILED none of the 26 field keys is in the
record. -/
theorem claimC9_result_schema {Img : Type} (st : Stages Img) (filename : List Char) :
    ∃ status error,
      lookupKV (process_pdf st filename) "Filename" = some filename ∧
      lookupKV (process_pdf st filename) "Status" = some status ∧
      lookupKV (process_pdf st filename) "Error" = some error ∧
      (status = "SUCCESS".toList ∨ status = "FAILED".toList) ∧
      (status = "SUCCESS".toList → error = [] ∧
        ∀ f ∈ firSchemaKeys, ∃ v, lookupKV (process_pdf st filename) f = some v) ∧
      (status = "FAILED".toList →
        ∀ f ∈ firSchemaKeys, lookupKV (process_pdf st filename) f = none) := by
  unfold process_pdf
  split
  · exact c9_dict_failed filename _ _ rfl
  · split
    · exact c9_dict_failed filename noImagesMsg.toList _ rfl
    · split
      · exact c9_dict_failed filename _ _ rfl
      · split
        · exact c9_dict_failed filename emptyOcrMsg.toList _ rfl
        · exact c9_dict_success filename _ _ (process_success_dict filename _)

/-! ### The historical variant raises (claim C10) -/

/-- C10: on any PDF with at least one page holding at least one extracted
line, extract_pdf raises — already its import of `extract_fir_fields`, a
name fir_fields.py does not bind, fails (and were it patched, the
one-argument `detect_section(line)` call raises TypeError) — so no record
list is ever produced. -/
theorem claimC10_extract_pdf_raises (pages : List (List (List Char)))
    (_h : ∃ page ∈ pages, page ≠ []) :
    extract_pdf pages =
      .error "ImportError: cannot import name extract_fir_fields from src.fir_fields" ∧
    ∀ records, extract_pdf pages ≠ .ok records := by
  refine ⟨rfl, ?_⟩
  intro records hrec
  rw [show extract_pdf pages = Except.error
    "ImportError: cannot import name extract_fir_fields from src.fir_fields"
    from rfl] at hrec
  exact Except.noConfusion hrec

/-- C10 witness: a one-page document with one line. -/
theorem claimC10_extract_pdf_raises_witness :
    extract_pdf [[['a']]] =
      .error "ImportError: cannot import name extract_fir_fields from src.fir_fields" :=
  (claimC10_extract_pdf_raises [[['a']]] ⟨[['a']], by simp, by simp⟩).1

/-! ### The FIR_Contents capture (claim C5) -/

theorem runLen_dot_end : ∀ (u r : List Char), (∀ c ∈ u, c ≠ '\n') →
    runLen flagsIM clsDot (u ++ '\n' :: r) = u.length := by
  intro u r
  induction u with
  | nil =>
    intro _
    simp [runLen, clsMatch, ccMatch, clsDot, flagsIM]
  | cons c u' ih =>
    intro h
    have hc : clsMatch flagsIM clsDot c = true := by
      simp [clsMatch, ccMatch, clsDot, flagsIM, h c (List.mem_cons_self c u')]
    simp [runLen, hc, ih fun x hx => h x (List.mem_cons_of_mem c hx)]

set_option maxHeartbeats 3000000 in
theorem contentsSearch_capture (b0 : Char) (tl r : List Char)
    (hsep : clsMatch flagsIM clsSep b0 = false)
    (hb0 : b0 ≠ '\n')
    (hnl : ∀ c ∈ tl, c ≠ '\n')
    (hlen : tl.length + 1 ≤ 4000) (h20 : 20 ≤ tl.length + 1) :
    contentsSearch ("Complaint Details: ".toList ++ (b0 :: tl) ++ '\n' :: r) =
      some ("Complaint Details: ".toList ++ (b0 :: tl), some (b0 :: tl)) := by
  have hb0dot : clsMatch flagsIM clsDot b0 = true := by
    simp [clsMatch, ccMatch, clsDot, flagsIM, hb0]
  have hrdot : runLen flagsIM clsDot (tl ++ '\n' :: r) = tl.length :=
    runLen_dot_end tl r hnl
  have h1 : min (tl.length + 1) 4000 = tl.length + 1 := by omega
  have h2 : ¬(tl.length + 1 < 20) := by omega
  have hsp1 : clsMatch flagsIM clsSpace ' ' = true := by decide
  have hsp2 : clsMatch flagsIM clsSpace 'D' = false := by decide
  have hsp3 : clsMatch flagsIM clsSpace ':' = false := by decide
  have hse1 : clsMatch flagsIM clsSep ':' = true := by decide
  have hse2 : clsMatch flagsIM clsSep ' ' = true := by decide
  have hml : flagsIM.multiline = true := rfl
  have harith : tl.length + (r.length + 1) - r.length = tl.length + 1 := by omega
  simp [contentsSearch, firstSearch, reSearch, reSearchGo, reMat, pContents1, reSeq,
    litMat, tryDown, runLen, locAdvance, charEqF, foldCase, rlit,
    hsep, hb0dot, hrdot, h1, h2, hsp1, hsp2, hsp3, hse1, hse2, hml,
    List.take_left, List.drop_left, List.take_succ_cons, List.drop_succ_cons,
    Nat.add_sub_cancel, Nat.add_sub_add_right, harith,
    List.getElem_append_right, List.getElem?_append_right,
    List.getElem_cons_zero, List.getElem?_cons_zero, Nat.sub_self]
  rw [show tl.length + (r.length + 1) + 1 + 1 + 1 + 1 + 1 + 1 + 1 + 1 + 1 + 1 + 1 + 1 +
      1 + 1 + 1 + 1 + 1 + 1 + 1 - r.length = tl.length + 20 from by omega]
  show List.take (tl.length + 20)
      ("Complaint Details: ".toList ++ (b0 :: (tl ++ '\n' :: r))) =
    "Complaint Details: ".toList ++ (b0 :: tl)
  rw [show tl.length + 20 = ("Complaint Details: ".toList).length + (tl.length + 1) from
    by rw [show ("Complaint Details: ".toList).length = 19 from rfl]; omega]
  rw [List.take_append, List.take_succ_cons, List.take_left]

/-- C5 (amended): when a `Complaint Details` header line matches, the
capture starts after the greedy separator run `[:\-\s]+` (not at the end of
the label) and — the pattern having no DOTALL — stops at the end of that
line (the MULTILINE `$`), not at the end of the text; the value is the
stripped capture, whose 5000-character cap never binds because the
quantifier already caps the capture at 4000 characters. -/
theorem claimC5_contents_capture (b0 : Char) (tl r : List Char)
    (hsep : clsMatch flagsIM clsSep b0 = false)
    (hb0 : b0 ≠ '\n')
    (hnl : ∀ c ∈ tl, c ≠ '\n')
    (hlen : tl.length + 1 ≤ 4000) (h20 : 20 ≤ tl.length + 1) :
    contentsVal ("Complaint Details: ".toList ++ (b0 :: tl) ++ '\n' :: r) =
      (pyStrip (b0 :: tl)).take 5000 ∧
    (pyStrip (b0 :: tl)).take 5000 = pyStrip (b0 :: tl) := by
  constructor
  · unfold contentsVal
    rw [contentsSearch_capture b0 tl r hsep hb0 hnl hlen h20]
    rfl
  · apply List.take_of_length_le
    have hd1 : ((b0 :: tl).dropWhile isPyWs).length ≤ (b0 :: tl).length :=
      (List.dropWhile_sublist _).length_le
    have hd2 : (((b0 :: tl).dropWhile isPyWs).reverse.dropWhile isPyWs).length ≤
        ((b0 :: tl).dropWhile isPyWs).reverse.length :=
      (List.dropWhile_sublist _).length_le
    unfold pyStrip
    rw [List.length_reverse]
    rw [List.length_reverse] at hd2
    have : (b0 :: tl).length ≤ 5000 := by
      simp only [List.length_cons]
      omega
    omega

/-- C5 witness: a 20-character body followed by a further line. -/
theorem claimC5_contents_capture_witness :
    contentsVal ("Complaint Details: ".toList ++ ('x' :: List.replicate 19 'a') ++
        '\n' :: "MORE".toList) =
      (pyStrip ('x' :: List.replicate 19 'a')).take 5000 ∧
    (pyStrip ('x' :: List.replicate 19 'a')).take 5000 =
      pyStrip ('x' :: List.replicate 19 'a') :=
  claimC5_contents_capture 'x' (List.replicate 19 'a') ("MORE".toList)
    (by decide) (by decide) (by decide) (by decide) (by decide)
